import Mathlib

/-!
Verification of the crossword puzzle state machine and collaborative
synchronization layer: a shallow embedding of the grid/clue model
(`gridUtils`), the navigation engine (`navigationUtils`), the validation
engine (`puzzleValidator`), the local puzzle state store reducer
(`PuzzleContext`), and the rate-limited publish path (`useAbly`).

JavaScript `Map` objects are embedded as association lists with
insertion-order upsert semantics (`jsSet`); `undefined`-producing array
reads are embedded with `Option`; string cell keys `"row,col"` are
embedded as `Nat × Nat` pairs (the JS keying is injective on pairs), and
clue keys `"number-direction"` as `Nat × Dir`.
-/

namespace Crossword

/-- Across/down direction of a clue span or a selection. -/
inductive Dir where
  | across
  | down
deriving DecidableEq, Repr

/-- A JS `Map.set`: replace the value at the first matching key in
insertion order, else append a fresh entry at the end. -/
def jsSet {κ α : Type} [DecidableEq κ] : List (κ × α) → κ → α → List (κ × α)
  | [], k, v => [(k, v)]
  | (k', v') :: rest, k, v =>
      if k' = k then (k, v) :: rest else (k', v') :: jsSet rest k v

/-- A JS `Map.get`: value at the first matching key, if any. -/
def jsGet {κ α : Type} [DecidableEq κ] (m : List (κ × α)) (k : κ) : Option α :=
  (m.find? (fun kv => kv.1 = k)).map (fun kv => kv.2)

/-- A JS `Map.has`. -/
def jsHas {κ α : Type} [DecidableEq κ] (m : List (κ × α)) (k : κ) : Bool :=
  (m.find? (fun kv => kv.1 = k)).isSome

/-- The `Puzzle` payload: dimensions, flat answer grid (`"."` marks a
blocked cell), parallel clue-number array, and ordered clue/answer lists.
From `types/puzzle.ts`. -/
structure Puzzle where
  rows : Nat
  cols : Nat
  grid : List String
  gridnums : List Nat
  cluesAcross : List String
  cluesDown : List String
  answersAcross : List String
  answersDown : List String
deriving DecidableEq, Repr

/-- A derived grid cell, from `types/puzzle.ts`. `letter = none` embeds a
JS `undefined` read of `puzzle.grid[index]` past the end of the array. -/
structure Cell where
  letter : Option String
  number : Option Nat
  isBlack : Bool
  row : Nat
  col : Nat
  isCircled : Bool
  isShaded : Bool
deriving DecidableEq, Repr

instance : Inhabited Cell :=
  ⟨⟨none, none, false, 0, 0, false, false⟩⟩

/-- One cell of `buildGrid`: linear index `row*cols+col`, letter from the
flat grid, clue number from `gridnums` (`0` or out-of-range becomes
`null`), `isBlack` iff the letter is `"."`.  Circles and shading are
disabled in the source. -/
def buildCell (p : Puzzle) (row col : Nat) : Cell :=
  let index := row * p.cols + col
  let letter := p.grid.get? index
  let number := (p.gridnums.get? index).bind (fun n => if n = 0 then none else some n)
  { letter := letter
    number := number
    isBlack := letter = some "."
    row := row
    col := col
    isCircled := false
    isShaded := false }

/-- `buildGrid` from `gridUtils.ts`: the flat puzzle as a 2-D
`rows × cols` array of cells. -/
def buildGrid (p : Puzzle) : List (List Cell) :=
  (List.range p.rows).map (fun row => (List.range p.cols).map (fun col => buildCell p row col))

/-- In-bounds indexing `grid[row][col]`; the default is never read on the
bounds-checked paths of the source. -/
def cellAt (g : List (List Cell)) (row col : Nat) : Cell :=
  ((g.get? row).bind (fun r => r.get? col)).getD default

/-- A clue span (`ClueInfo` in `types/puzzle.ts`): number, text, answer,
direction, and the ordered cells of the word. -/
structure ClueInfo where
  number : Nat
  clue : String
  answer : String
  direction : Dir
  cells : List (Nat × Nat)
deriving DecidableEq, Repr

/-- The clue map keyed by `"number-direction"`, embedded as `Nat × Dir`. -/
abbrev ClueMap := List ((Nat × Dir) × ClueInfo)

/-- Walk right from `(row, col)` collecting cells until a blocked cell or
the right edge (the `while` loop of the across branch of `buildClueMap`).
Structural recursion on the remaining width `fuel = cols - col`. -/
def walkAcross (g : List (List Cell)) (row : Nat) : Nat → Nat → List (Nat × Nat)
  | _, 0 => []
  | col, fuel + 1 =>
      if (cellAt g row col).isBlack then []
      else (row, col) :: walkAcross g row (col + 1) fuel

/-- Walk down from `(row, col)` collecting cells until a blocked cell or
the bottom edge (the `while` loop of the down branch of `buildClueMap`). -/
def walkDown (g : List (List Cell)) (col : Nat) : Nat → Nat → List (Nat × Nat)
  | _, 0 => []
  | row, fuel + 1 =>
      if (cellAt g row col).isBlack then []
      else (row, col) :: walkDown g col (row + 1) fuel

/-- Row-major scan order of all cell positions. -/
def posList (rows cols : Nat) : List (Nat × Nat) :=
  (List.range rows).flatMap (fun row => (List.range cols).map (fun col => (row, col)))

/-- Accumulator of the `buildClueMap` scan: the map under construction and
the `acrossIndex` / `downIndex` cursors into the clue lists. -/
structure ClueScanState where
  map : ClueMap
  acrossIndex : Nat
  downIndex : Nat

/-- One position of the `buildClueMap` scan: skip blocked or unnumbered
cells; at an across start (left edge or blocked on the left, and an
unblocked right neighbor) consume the next across clue; symmetrically for
down. -/
def clueScanStep (p : Puzzle) (g : List (List Cell)) (s : ClueScanState)
    (pos : Nat × Nat) : ClueScanState :=
  let row := pos.1
  let col := pos.2
  let cell := cellAt g row col
  if cell.isBlack then s else
  match cell.number with
  | none => s
  | some clueNumber =>
      let startsAcross := decide (col = 0) || (cellAt g row (col - 1)).isBlack
      let s1 :=
        if startsAcross && decide (col < p.cols - 1) && !(cellAt g row (col + 1)).isBlack then
          let cells := walkAcross g row col (p.cols - col)
          if s.acrossIndex < p.cluesAcross.length then
            { map := jsSet s.map (clueNumber, Dir.across)
                { number := clueNumber
                  clue := p.cluesAcross.getD s.acrossIndex ""
                  answer := p.answersAcross.getD s.acrossIndex ""
                  direction := Dir.across
                  cells := cells }
              acrossIndex := s.acrossIndex + 1
              downIndex := s.downIndex }
          else s
        else s
      let startsDown := decide (row = 0) || (cellAt g (row - 1) col).isBlack
      if startsDown && decide (row < p.rows - 1) && !(cellAt g (row + 1) col).isBlack then
        let cells := walkDown g col row (p.rows - row)
        if s1.downIndex < p.cluesDown.length then
          { map := jsSet s1.map (clueNumber, Dir.down)
              { number := clueNumber
                clue := p.cluesDown.getD s1.downIndex ""
                answer := p.answersDown.getD s1.downIndex ""
                direction := Dir.down
                cells := cells }
            acrossIndex := s1.acrossIndex
            downIndex := s1.downIndex + 1 }
        else s1
      else s1

/-- `buildClueMap` from `gridUtils.ts`: scan cells in row-major order,
opening an across/down span at each start and consuming the next unused
entry of the corresponding clue list. -/
def buildClueMap (p : Puzzle) : ClueMap :=
  let g := buildGrid p
  ((posList p.rows p.cols).foldl (clueScanStep p g) ⟨[], 0, 0⟩).map

/-- Walk left from column `col` to the start of the across word: the
`while (col > 0 && !grid[row][col-1].isBlack) col--` loop of
`getClueKeyForCell`. -/
def startColAcross (g : List (List Cell)) (row : Nat) : Nat → Nat
  | 0 => 0
  | c + 1 => if !(cellAt g row c).isBlack then startColAcross g row c else c + 1

/-- Walk up from row `row` to the start of the down word. -/
def startRowDown (g : List (List Cell)) (col : Nat) : Nat → Nat
  | 0 => 0
  | r + 1 => if !(cellAt g r col).isBlack then startRowDown g col r else r + 1

/-- `getClueKeyForCell` from `gridUtils.ts`: bounds- and block-check the
cell, walk to the start of the word in the given direction, and return
the key `number-direction` when the start cell is numbered and the clue
map has that key. -/
def getClueKeyForCell (g : List (List Cell)) (row col : Nat) (direction : Dir)
    (clueMap : ClueMap) : Option (Nat × Dir) :=
  let rows := g.length
  let cols := (g.head?.map List.length).getD 0
  if row ≥ rows ∨ col ≥ cols then none
  else if (cellAt g row col).isBlack then none
  else
    let startRow := if direction = Dir.across then row else startRowDown g col row
    let startCol := if direction = Dir.across then startColAcross g row col else col
    match (cellAt g startRow startCol).number with
    | none => none
    | some n => if jsHas clueMap (n, direction) then some (n, direction) else none

/-- `getCellsForClue` from `gridUtils.ts`. -/
def getCellsForClue (clueKey : Nat × Dir) (clueMap : ClueMap) : List (Nat × Nat) :=
  match jsGet clueMap clueKey with
  | some info => info.cells
  | none => []

/-- A navigation result `{row, col, direction}`. -/
structure WordPos where
  row : Nat
  col : Nat
  direction : Dir
deriving DecidableEq, Repr

/-- The key `number-direction` under which a `ClueInfo` is matched by the
navigation code (the template string of `navigationUtils.ts`). -/
def clueInfoKey (c : ClueInfo) : Nat × Dir :=
  (c.number, c.direction)

/-- `getNextWord` from `navigationUtils.ts`: first cell of the next span
in the current direction's span ordering, wrapping by `% clues.length`;
from outside any span, the first span. -/
def getNextWord (g : List (List Cell)) (currentRow currentCol : Nat) (direction : Dir)
    (clueMap : ClueMap) : Option WordPos :=
  let clues := (clueMap.map Prod.snd).filter (fun c => c.direction = direction)
  match getClueKeyForCell g currentRow currentCol direction clueMap with
  | none =>
      match clues.head? with
      | some firstClue =>
          (firstClue.cells.head?).map (fun pos => ⟨pos.1, pos.2, direction⟩)
      | none => none
  | some currentClueKey =>
      match clues.findIdx? (fun c => clueInfoKey c = currentClueKey) with
      | none => none
      | some currentIndex =>
          let nextIndex := (currentIndex + 1) % clues.length
          match clues.get? nextIndex with
          | some nextClue =>
              (nextClue.cells.head?).map (fun pos => ⟨pos.1, pos.2, direction⟩)
          | none => none

/-- `getPreviousWord` from `navigationUtils.ts`: first cell of the
previous span, wrapping from index `0` to `clues.length - 1`; from
outside any span, the last span. -/
def getPreviousWord (g : List (List Cell)) (currentRow currentCol : Nat) (direction : Dir)
    (clueMap : ClueMap) : Option WordPos :=
  let clues := (clueMap.map Prod.snd).filter (fun c => c.direction = direction)
  match getClueKeyForCell g currentRow currentCol direction clueMap with
  | none =>
      match clues.getLast? with
      | some lastClue =>
          (lastClue.cells.head?).map (fun pos => ⟨pos.1, pos.2, direction⟩)
      | none => none
  | some currentClueKey =>
      match clues.findIdx? (fun c => clueInfoKey c = currentClueKey) with
      | none => none
      | some currentIndex =>
          let prevIndex := if currentIndex = 0 then clues.length - 1 else currentIndex - 1
          match clues.get? prevIndex with
          | some prevClue =>
              (prevClue.cells.head?).map (fun pos => ⟨pos.1, pos.2, direction⟩)
          | none => none

/-- `getNextCellInWordOrNextWord` from `navigationUtils.ts`: the next cell
of the current span when one remains, else `getNextWord`. -/
def getNextCellInWordOrNextWord (g : List (List Cell)) (currentRow currentCol : Nat)
    (direction : Dir) (clueMap : ClueMap) : Option WordPos :=
  match getClueKeyForCell g currentRow currentCol direction clueMap with
  | none => none
  | some clueKey =>
      let cells := getCellsForClue clueKey clueMap
      match cells.findIdx? (fun c => c = (currentRow, currentCol)) with
      | some currentIndex =>
          if currentIndex < cells.length - 1 then
            (cells.get? (currentIndex + 1)).map (fun pos => ⟨pos.1, pos.2, direction⟩)
          else
            getNextWord g currentRow currentCol direction clueMap
      | none => getNextWord g currentRow currentCol direction clueMap

/-- JS `String.prototype.toUpperCase` on the alphabet in use. -/
def toUpperCase (s : String) : String :=
  String.mk (s.data.map Char.toUpper)

/-- Accumulator of the `validatePuzzle` loop. -/
structure ValidateAcc where
  incorrectCells : List (Nat × Nat)
  filledCells : Nat
  totalWhiteCells : Nat
deriving DecidableEq, Repr

/-- Result record of `validatePuzzle`. -/
structure ValidateResult where
  isComplete : Bool
  isAllCorrect : Bool
  incorrectCells : List (Nat × Nat)
deriving DecidableEq, Repr

/-- One cell of the `validatePuzzle` loop: skip blocked cells, count white
cells, skip pencil cells before the filled/incorrect bookkeeping, and
compare the entered letter case-insensitively with the answer.  A `none`
answer letter (an out-of-range read, a `TypeError` in the source,
unreachable under the `len(grid) = rows*cols` data-model invariant) is
treated as a mismatch. -/
def validateStep (p : Puzzle) (userGrid : List ((Nat × Nat) × String))
    (pencilCells : List (Nat × Nat)) (acc : ValidateAcc) (pos : Nat × Nat) : ValidateAcc :=
  let index := pos.1 * p.cols + pos.2
  let correctLetter := p.grid.get? index
  if correctLetter = some "." then acc
  else
    let acc := { acc with totalWhiteCells := acc.totalWhiteCells + 1 }
    let userLetter := (jsGet userGrid pos).getD ""
    if pos ∈ pencilCells then acc
    else if userLetter = "" then acc
    else
      let mismatch : Bool :=
        match correctLetter with
        | some L => toUpperCase userLetter ≠ toUpperCase L
        | none => true
      if mismatch then
        { acc with filledCells := acc.filledCells + 1,
                   incorrectCells := acc.incorrectCells ++ [pos] }
      else
        { acc with filledCells := acc.filledCells + 1 }

/-- `validatePuzzle` from `puzzleValidator.ts`: `isComplete` iff the
filled count reaches the white count, `isAllCorrect` iff no incorrect
cell was recorded and the puzzle is complete. -/
def validatePuzzle (p : Puzzle) (userGrid : List ((Nat × Nat) × String))
    (pencilCells : List (Nat × Nat)) : ValidateResult :=
  let acc := (posList p.rows p.cols).foldl (validateStep p userGrid pencilCells) ⟨[], 0, 0⟩
  { isComplete := acc.filledCells = acc.totalWhiteCells
    isAllCorrect := decide (acc.incorrectCells.length = 0) && decide (acc.filledCells = acc.totalWhiteCells)
    incorrectCells := acc.incorrectCells }

/-- The active selection `{row, col, direction, clueNumber}`. -/
structure Selection where
  row : Nat
  col : Nat
  direction : Dir
  clueNumber : Option Nat
deriving DecidableEq, Repr

/-- JS `Map.delete`: remove the (unique) entry at the key. -/
def jsDelete {κ α : Type} [DecidableEq κ] (m : List (κ × α)) (k : κ) : List (κ × α) :=
  m.eraseP (fun kv => decide (kv.1 = k))

/-- JS `Set.add`: append the element if absent. -/
def jsSetAdd {κ : Type} [DecidableEq κ] (s : List κ) (k : κ) : List κ :=
  if k ∈ s then s else s ++ [k]

/-- JS `Set.delete`: remove the (unique) element. -/
def jsSetDelete {κ : Type} [DecidableEq κ] (s : List κ) (k : κ) : List κ :=
  s.eraseP (fun x => decide (x = k))

/-- The fields of the `PuzzleContext` reducer state that the verified
actions read or write.  `hasCollaborativeDispatch` embeds
`collaborativeDispatch !== null`; the timer and loading fields are
omitted (no verified claim mentions them). -/
structure PState where
  puzzle : Option Puzzle
  grid : Option (List (List Cell))
  clueMap : Option ClueMap
  userGrid : List ((Nat × Nat) × String)
  pencilCells : List (Nat × Nat)
  checkedCells : List ((Nat × Nat) × Bool)
  isPencilMode : Bool
  isPaused : Bool
  isComplete : Bool
  isCollaborative : Bool
  hasCollaborativeDispatch : Bool
  selection : Option Selection
  error : Option String
deriving DecidableEq, Repr

/-- A call to `collaborativeDispatch`, recorded as data so that "was this
action re-published" is observable. -/
inductive BroadcastMsg where
  | cellEdit (row col : Nat) (value : String)
  | checkCell (row col : Nat) (isCorrect : Bool)
  | clearChecks
  | setComplete (isComplete : Bool)
deriving DecidableEq, Repr

/-- The `SET_CELL_VALUE` case of `puzzleReducer`: empty value deletes the
key from the user grid and the pencil set; a non-empty value is stored
uppercased, with the pencil set updated by the
`_forceCommit`/`isPencilMode`/`_fromRemote` cascade; the edit is
re-published only when `!_fromRemote && isCollaborative &&
collaborativeDispatch`.  Typing auto-resumes the timer
(`isPaused := false`).  The debounced local save is an external side
effect with no bearing on the state transition. -/
def setCellValue (s : PState) (row col : Nat) (value : String)
    (fromRemote forceCommit : Bool) : PState × List BroadcastMsg :=
  let key := (row, col)
  let st :=
    if value = "" then
      { s with userGrid := jsDelete s.userGrid key,
               pencilCells := jsSetDelete s.pencilCells key, isPaused := false }
    else
      let newUserGrid := jsSet s.userGrid key (toUpperCase value)
      let newPencil :=
        if forceCommit then jsSetDelete s.pencilCells key
        else if s.isPencilMode && !fromRemote then jsSetAdd s.pencilCells key
        else if !fromRemote then jsSetDelete s.pencilCells key
        else s.pencilCells
      { s with userGrid := newUserGrid, pencilCells := newPencil, isPaused := false }
  let msgs :=
    if !fromRemote && s.isCollaborative && s.hasCollaborativeDispatch then
      [BroadcastMsg.cellEdit row col value]
    else []
  (st, msgs)

/-- The `CHECK_CELL` case of `puzzleReducer`. -/
def checkCellAction (s : PState) (row col : Nat) (isCorrect : Bool)
    (fromRemote : Bool) : PState × List BroadcastMsg :=
  let st := { s with checkedCells := jsSet s.checkedCells (row, col) isCorrect }
  let msgs :=
    if !fromRemote && s.isCollaborative && s.hasCollaborativeDispatch then
      [BroadcastMsg.checkCell row col isCorrect]
    else []
  (st, msgs)

/-- The `CLEAR_CHECKS` case of `puzzleReducer`. -/
def clearChecksAction (s : PState) (fromRemote : Bool) : PState × List BroadcastMsg :=
  let st := { s with checkedCells := [] }
  let msgs :=
    if !fromRemote && s.isCollaborative && s.hasCollaborativeDispatch then
      [BroadcastMsg.clearChecks]
    else []
  (st, msgs)

/-- The `SET_COMPLETE` case of `puzzleReducer`. -/
def setCompleteAction (s : PState) (value : Bool) (fromRemote : Bool) :
    PState × List BroadcastMsg :=
  let st := { s with isComplete := value }
  let msgs :=
    if !fromRemote && s.isCollaborative && s.hasCollaborativeDispatch then
      [BroadcastMsg.setComplete value]
    else []
  (st, msgs)

/-- The `TOGGLE_DIRECTION` case of `puzzleReducer`: flip the direction of
the current selection in place; no other field is consulted. -/
def toggleDirection (s : PState) : PState :=
  match s.selection with
  | none => s
  | some sel =>
      let flipped := if sel.direction = Dir.across then Dir.down else Dir.across
      { s with selection := some { sel with direction := flipped } }

/-- The `SET_PUZZLE` case of `puzzleReducer` on the `_skipLocalSave` path
(the restore of previously persisted progress is an external-collaborator
read and is omitted): rebuild the grid and clue map unconditionally —
there is no payload validation — reset the maps, auto-select the first
across span, and clear the error field. -/
def setPuzzle (s : PState) (p : Puzzle) : PState :=
  let grid := buildGrid p
  let clueMap := buildClueMap p
  let firstClue := (clueMap.map Prod.snd).find? (fun c => c.direction = Dir.across)
  let initialSelection :=
    match firstClue with
    | some c =>
        match c.cells.head? with
        | some pos => some (Selection.mk pos.1 pos.2 Dir.across (some c.number))
        | none => none
    | none => none
  { s with puzzle := some p, grid := some grid, clueMap := some clueMap,
           userGrid := [], checkedCells := [], pencilCells := [],
           isPencilMode := false, isComplete := false,
           selection := initialSelection, error := none }

/-- A `cell_edit` wire event; `userId`/`timestamp` metadata are carried
unchanged by the rate limiter and are omitted. -/
structure CellEditEv where
  row : Nat
  col : Nat
  value : String
deriving DecidableEq, Repr

/-- The JS cell key of an edit. -/
def cellKey (e : CellEditEv) : Nat × Nat :=
  (e.row, e.col)

/-- The inbound `channel.subscribe` handler of `useAbly`: `none` data is
ignored, an event whose `_tabId` equals the local tab id is discarded,
any other event is handed to `onEvent` (which dispatches it tagged
`_fromRemote`). -/
def handleInbound {E : Type} (ownTabId : String)
    (data : Option (Option String × E)) : Option E :=
  match data with
  | none => none
  | some (tabId, ev) => if tabId = some ownTabId then none else some ev

/-- The mutable state of the `publish` closure of `useAbly`:
`editTimestamps`, the coalescing `queue`, the pending flush timer
(`flushAt` is the absolute time the 50ms `setTimeout` will fire), the
channel's received log, and — as a ghost field — the times of the
immediately-sent cell edits. -/
structure PubState where
  editTimestamps : List Nat
  queue : List CellEditEv
  flushAt : Option Nat
  channelLog : List CellEditEv
  immediateTimes : List Nat
deriving DecidableEq, Repr

/-- The coalescing step of the flush callback: a JS `Map` keyed by
`"row,col"` holding the latest edit per cell, then `values()` in key
insertion order. -/
def coalesceQueue (q : List CellEditEv) : List CellEditEv :=
  (q.foldl (fun m e => jsSet m (cellKey e) e) []).map Prod.snd

/-- The flush callback: publish the latest queued edit per cell and clear
the queue and the timer. -/
def doFlush (s : PubState) : PubState :=
  { s with queue := [], flushAt := none,
           channelLog := s.channelLog ++ coalesceQueue s.queue }

/-- One `publish` call at wall-clock time `now` for a `cell_edit` event:
drop timestamps older than the 1000ms window (`RATE_WINDOW_MS`); if 20
(`RATE_LIMIT`) timestamps remain, queue the event and arm the 50ms flush
timer if not already armed; otherwise record the timestamp and publish
immediately. -/
def doPublish (s : PubState) (now : Nat) (e : CellEditEv) : PubState :=
  let ts := s.editTimestamps.filter (fun t => now - t < 1000)
  if 20 ≤ ts.length then
    { s with editTimestamps := ts, queue := s.queue ++ [e],
             flushAt := some (s.flushAt.getD (now + 50)) }
  else
    { s with editTimestamps := ts ++ [now],
             immediateTimes := s.immediateTimes ++ [now],
             channelLog := s.channelLog ++ [e] }

/-- Event-loop step: a due flush timer fires before the code that runs at
a later wall-clock instant, then the `publish` call executes. -/
def pubStep (s : PubState) (inp : Nat × CellEditEv) : PubState :=
  let s1 :=
    match s.flushAt with
    | some ft => if ft ≤ inp.1 then doFlush s else s
    | none => s
  doPublish s1 inp.1 inp.2

/-- A still-armed timer fires after the last `publish` call. -/
def finalFlush (s : PubState) : PubState :=
  match s.flushAt with
  | some _ => doFlush s
  | none => s

/-- Run a timeline of `(time, cell_edit)` publish calls from the fresh
closure state, letting the pending flush timer fire at the end. -/
def runPublish (inputs : List (Nat × CellEditEv)) : PubState :=
  finalFlush (inputs.foldl pubStep ⟨[], [], none, [], []⟩)

/-- Last value received/published for a cell key in a list of edits. -/
def lastVal (log : List CellEditEv) (k : Nat × Nat) : Option String :=
  (log.reverse.find? (fun e => cellKey e = k)).map (fun e => e.value)

/-- Last value published for a cell key over a publish timeline. -/
def lastPublished (inputs : List (Nat × CellEditEv)) (k : Nat × Nat) : Option String :=
  lastVal (inputs.map Prod.snd) k

/-- At most 20 of the given times fall in any 1000ms window. -/
def slidingWindowOk (times : List Nat) : Prop :=
  ∀ q : Nat, times.countP (fun x => decide (q ≤ x) && decide (x < q + 1000)) ≤ 20

/-- The `initialState` of `PuzzleContext` (the fields modelled here). -/
def initialPState : PState :=
  { puzzle := none, grid := none, clueMap := none, userGrid := [],
    pencilCells := [], checkedCells := [], isPencilMode := false,
    isPaused := false, isComplete := false, isCollaborative := false,
    hasCollaborativeDispatch := false, selection := none, error := none }

/-! ### Association-list (JS `Map`/`Set`) lemmas -/

theorem jsSet_self_idem {κ α : Type} [DecidableEq κ] (m : List (κ × α)) (k : κ) (v : α) :
    jsSet (jsSet m k v) k v = jsSet m k v := by
  induction m with
  | nil => simp [jsSet]
  | cons kv rest ih =>
      obtain ⟨k', v'⟩ := kv
      by_cases h : k' = k
      · simp [jsSet, h]
      · simp [jsSet, h, ih]

theorem jsDelete_of_not_mem {κ α : Type} [DecidableEq κ] {m : List (κ × α)} {k : κ}
    (h : k ∉ m.map Prod.fst) : jsDelete m k = m := by
  induction m with
  | nil => rfl
  | cons kv rest ih =>
      obtain ⟨k', v'⟩ := kv
      simp only [List.map_cons, List.mem_cons, not_or] at h
      simp only [jsDelete, List.eraseP_cons]
      rw [show (decide (k' = k)) = false from by simp [Ne.symm h.1]]
      exact congrArg (List.cons _) (ih h.2)

theorem not_mem_keys_jsDelete {κ α : Type} [DecidableEq κ] {m : List (κ × α)} {k : κ}
    (h : (m.map Prod.fst).Nodup) : k ∉ (jsDelete m k).map Prod.fst := by
  induction m with
  | nil => simp [jsDelete]
  | cons kv rest ih =>
      obtain ⟨k', v'⟩ := kv
      simp only [List.map_cons, List.nodup_cons] at h
      by_cases hk : k' = k
      · subst hk
        simpa [jsDelete, List.eraseP_cons] using h.1
      · simp only [jsDelete, List.eraseP_cons]
        rw [show (decide (k' = k)) = false from by simp [hk]]
        simp only [cond_false, List.map_cons, List.mem_cons, not_or]
        exact ⟨Ne.symm hk, ih h.2⟩

theorem jsDelete_self_idem {κ α : Type} [DecidableEq κ] {m : List (κ × α)} {k : κ}
    (h : (m.map Prod.fst).Nodup) : jsDelete (jsDelete m k) k = jsDelete m k :=
  jsDelete_of_not_mem (not_mem_keys_jsDelete h)

theorem jsGet_jsSet_self {κ α : Type} [DecidableEq κ] (m : List (κ × α)) (k : κ) (v : α) :
    jsGet (jsSet m k v) k = some v := by
  induction m with
  | nil => simp [jsSet, jsGet]
  | cons kv rest ih =>
      obtain ⟨k', v'⟩ := kv
      by_cases h : k' = k
      · simp [jsSet, jsGet, h]
      · simp only [jsSet, if_neg h, jsGet, List.find?_cons]
        rw [show (decide (k' = k)) = false from by simp [h]]
        exact ih

theorem jsGet_of_not_mem {κ α : Type} [DecidableEq κ] {m : List (κ × α)} {k : κ}
    (h : k ∉ m.map Prod.fst) : jsGet m k = none := by
  induction m with
  | nil => rfl
  | cons kv rest ih =>
      obtain ⟨k', v'⟩ := kv
      simp only [List.map_cons, List.mem_cons, not_or] at h
      simp only [jsGet, List.find?_cons]
      rw [show (decide (k' = k)) = false from by simp [Ne.symm h.1]]
      exact ih h.2

theorem jsGet_jsDelete_self {κ α : Type} [DecidableEq κ] {m : List (κ × α)} {k : κ}
    (h : (m.map Prod.fst).Nodup) : jsGet (jsDelete m k) k = none :=
  jsGet_of_not_mem (not_mem_keys_jsDelete h)

theorem mem_of_mem_jsSet {κ α : Type} [DecidableEq κ] {m : List (κ × α)} {k : κ} {v : α}
    {kv : κ × α} (h : kv ∈ jsSet m k v) : kv = (k, v) ∨ kv ∈ m := by
  induction m with
  | nil => simpa [jsSet] using h
  | cons kv' rest ih =>
      obtain ⟨k', v'⟩ := kv'
      by_cases hk : k' = k
      · simp only [jsSet, if_pos hk, List.mem_cons] at h
        rcases h with h | h
        · exact Or.inl h
        · exact Or.inr (List.mem_cons_of_mem _ h)
      · simp only [jsSet, if_neg hk, List.mem_cons] at h
        rcases h with h | h
        · exact Or.inr (by simp [h])
        · rcases ih h with h' | h'
          · exact Or.inl h'
          · exact Or.inr (List.mem_cons_of_mem _ h')

theorem mem_of_mem_jsDelete {κ α : Type} [DecidableEq κ] {m : List (κ × α)} {k : κ}
    {kv : κ × α} (h : kv ∈ jsDelete m k) : kv ∈ m :=
  List.mem_of_mem_eraseP h

theorem not_mem_jsSetDelete {κ : Type} [DecidableEq κ] {s : List κ} {k : κ}
    (h : s.Nodup) : k ∉ jsSetDelete s k := by
  induction s with
  | nil => simp [jsSetDelete]
  | cons a rest ih =>
      simp only [List.nodup_cons] at h
      by_cases ha : a = k
      · subst ha
        simpa [jsSetDelete, List.eraseP_cons] using h.1
      · simp only [jsSetDelete, List.eraseP_cons]
        rw [show (decide (a = k)) = false from by simp [ha]]
        simp only [cond_false, List.mem_cons, not_or]
        exact ⟨Ne.symm ha, ih h.2⟩

theorem toUpperCase_ne_empty {v : String} (h : v ≠ "") : toUpperCase v ≠ "" := by
  intro hc
  cases v with
  | mk data =>
      cases data with
      | nil => exact h rfl
      | cons c cs =>
          have h2 := congrArg String.data hc
          simp [toUpperCase] at h2

/-! ### Concrete puzzles used as witnesses and counterexamples -/

/-- A well-formed 1×3 puzzle: one across word `CAT`, no down spans. -/
def pCat : Puzzle :=
  ⟨1, 3, ["C", "A", "T"], [1, 0, 0], ["one across"], [], ["CAT"], []⟩

/-- A well-formed 2×2 puzzle: two across words and two down words. -/
def p22 : Puzzle :=
  ⟨2, 2, ["C", "A", "T", "S"], [1, 2, 3, 0], ["a1", "a3"], ["d1", "d2"],
    ["CA", "TS"], ["CT", "AS"]⟩

/-- A malformed payload: `rows*cols = 2` but the flat `grid` and
`gridnums` arrays have length 1. -/
def pBad : Puzzle :=
  ⟨1, 2, ["A"], [1], ["a1"], [], ["A"], []⟩

/-- Reducer state after loading `pCat`, with the first across span
auto-selected. -/
def sCat : PState :=
  setPuzzle initialPState pCat

/-! ### C1 — idempotence of `SET_CELL_VALUE` on the user grid -/

/-- C1: applying the same `cell_edit` event (a `SET_CELL_VALUE` action
with a given row, col, value) twice to any Local Puzzle State Store
state whose user grid is a well-formed JS map (no duplicate keys) yields
the same `UserGridEntry` map as applying it once. -/
theorem c1_cell_edit_idempotent (s : PState) (row col : Nat) (value : String)
    (fromRemote forceCommit : Bool)
    (h : (s.userGrid.map Prod.fst).Nodup) :
    (setCellValue (setCellValue s row col value fromRemote forceCommit).1
        row col value fromRemote forceCommit).1.userGrid =
      (setCellValue s row col value fromRemote forceCommit).1.userGrid := by
  by_cases hv : value = ""
  · simp only [setCellValue, if_pos hv]
    exact jsDelete_self_idem h
  · simp only [setCellValue, if_neg hv]
    exact jsSet_self_idem s.userGrid (row, col) (toUpperCase value)

/-- Witness for C1: a concrete double application on a concrete state. -/
theorem c1_witness :
    ((sCat.userGrid.map Prod.fst).Nodup) ∧
    (setCellValue (setCellValue sCat 0 1 "q" false false).1 0 1 "q" false false).1.userGrid =
      (setCellValue sCat 0 1 "q" false false).1.userGrid := by
  refine ⟨by decide, c1_cell_edit_idempotent sCat 0 1 "q" false false (by decide)⟩

/-! ### C3 — echo suppression and no re-publication of remote events -/

/-- C3: on the inbound path every received event whose tab identifier
equals the local session's own tab identifier is discarded (the
subscribe handler returns nothing to apply), and an action applied to
the Local Puzzle State Store with the `_fromRemote` tag emits no
`collaborativeDispatch` call, for each of the four re-publishable
action kinds. -/
theorem c3_echo_suppression_no_republish :
    (∀ (E : Type) (ownTabId : String) (tabId : Option String) (ev : E),
        tabId = some ownTabId →
        handleInbound ownTabId (some (tabId, ev)) = none) ∧
    (∀ (s : PState) (row col : Nat) (value : String) (forceCommit : Bool),
        (setCellValue s row col value true forceCommit).2 = []) ∧
    (∀ (s : PState) (row col : Nat) (isCorrect : Bool),
        (checkCellAction s row col isCorrect true).2 = []) ∧
    (∀ s : PState, (clearChecksAction s true).2 = []) ∧
    (∀ (s : PState) (value : Bool), (setCompleteAction s value true).2 = []) := by
  refine ⟨?_, ?_, ?_, ?_, ?_⟩
  · intro E ownTabId tabId ev h
    simp [handleInbound, h]
  · intro s row col value forceCommit
    simp [setCellValue]
  · intro s row col isCorrect
    simp [checkCellAction]
  · intro s
    simp [clearChecksAction]
  · intro s value
    simp [setCompleteAction]

/-- Witness for C3: a concrete own-tab message is discarded and a
concrete remote-tagged edit emits no broadcast. -/
theorem c3_witness :
    handleInbound "tab1" (some (some "tab1", (⟨0, 0, "A"⟩ : CellEditEv))) = none ∧
    (setCellValue sCat 0 0 "A" true false).2 = [] :=
  ⟨c3_echo_suppression_no_republish.1 CellEditEv "tab1" (some "tab1") ⟨0, 0, "A"⟩ rfl,
   c3_echo_suppression_no_republish.2.1 sCat 0 0 "A" false⟩

/-! ### C4 — malformed payloads are not rejected at load time -/

/-- C4 (claim is right, code lacks the check): loading the malformed
puzzle `pBad` (grid length 1 ≠ rows*cols = 2) is not rejected — the
`SET_PUZZLE` transition clears the error field and installs a silently
corrupt Grid Model whose cell (0,1) is non-blocked yet has no answer
letter (an out-of-range `undefined` read in the source). -/
theorem c4_malformed_load_not_rejected :
    pBad.grid.length ≠ pBad.rows * pBad.cols ∧
    (setPuzzle initialPState pBad).error = none ∧
    (setPuzzle initialPState pBad).grid = some (buildGrid pBad) ∧
    cellAt (buildGrid pBad) 0 1 =
      { letter := none, number := none, isBlack := false, row := 0, col := 1,
        isCircled := false, isShaded := false } := by
  refine ⟨by decide, rfl, rfl, by decide⟩

/-! ### C5 — Space/Enter direction toggle has no no-op guard -/

/-- The opposite direction, as computed by `TOGGLE_DIRECTION`. -/
def dirOpposite (d : Dir) : Dir :=
  if d = Dir.across then Dir.down else Dir.across

/-- A `ClueSpan` exists through the cell in the given direction (the
guard the spec describes), computed from `getClueKeyForCell`. -/
def spanExistsThrough (g : List (List Cell)) (cm : ClueMap) (row col : Nat) (d : Dir) : Prop :=
  (getClueKeyForCell g row col d cm).isSome = true

/-- C5 as stated: for every selection on a non-blocked cell, Space/Enter
toggles the selection's direction in place, and if no `ClueSpan` exists
through that cell in the new direction the toggle is a no-op leaving the
selection unchanged. -/
def c5_claim : Prop :=
  ∀ (s : PState) (g : List (List Cell)) (cm : ClueMap) (sel : Selection),
    s.grid = some g → s.clueMap = some cm → s.selection = some sel →
    (cellAt g sel.row sel.col).isBlack = false →
    ((spanExistsThrough g cm sel.row sel.col (dirOpposite sel.direction) →
        (toggleDirection s).selection =
          some { sel with direction := dirOpposite sel.direction }) ∧
      (¬ spanExistsThrough g cm sel.row sel.col (dirOpposite sel.direction) →
        toggleDirection s = s))

/-- C5 counterexample: on the 1×3 puzzle `pCat` there is no down span
through (0,0), yet `TOGGLE_DIRECTION` still flips the selection to
down — the no-op guard does not exist in the code. -/
theorem c5_counterexample : ¬ c5_claim := by
  intro h
  have hsel : sCat.selection = some ⟨0, 0, Dir.across, some 1⟩ := by decide
  have h2 := (h sCat (buildGrid pCat) (buildClueMap pCat) ⟨0, 0, Dir.across, some 1⟩
      rfl rfl hsel (by decide)).2 (by simp only [spanExistsThrough]; decide)
  exact absurd h2 (by decide)

/-- C5 amended: Space dispatches `TOGGLE_DIRECTION`, which flips the
selection's direction in place unconditionally — it consults neither the
grid nor the clue map, so there is no no-op guard when no `ClueSpan`
exists through the cell in the new direction (and Enter advances to the
next word rather than toggling). -/
theorem c5_toggle_unconditional (s : PState) (sel : Selection)
    (h : s.selection = some sel) :
    toggleDirection s =
      { s with selection := some { sel with direction := dirOpposite sel.direction } } := by
  simp only [toggleDirection, h, dirOpposite]

/-- Witness for C5's amended theorem at a concrete state. -/
theorem c5_witness :
    sCat.selection = some ⟨0, 0, Dir.across, some 1⟩ ∧
    toggleDirection sCat =
      { sCat with selection := some ⟨0, 0, Dir.down, some 1⟩ } := by
  refine ⟨by decide, ?_⟩
  exact c5_toggle_unconditional sCat ⟨0, 0, Dir.across, some 1⟩ (by decide)

/-! ### C10 — no empty-string entries in the user grid -/

/-- C10: after any `SET_CELL_VALUE` transition from a state whose user
grid is a well-formed JS map with no empty-string values (and a
duplicate-free pencil set), the user grid still never maps a key to the
empty string; dispatching an empty value deletes the key from both the
user grid and the pencil set, and every non-empty value is stored
uppercased — absence of a key is the only representation of an empty
cell. -/
theorem c10_no_empty_entries (s : PState) (row col : Nat) (value : String)
    (fromRemote forceCommit : Bool)
    (hkeys : (s.userGrid.map Prod.fst).Nodup)
    (hpencil : s.pencilCells.Nodup)
    (hclean : ∀ kv ∈ s.userGrid, kv.2 ≠ "") :
    (∀ kv ∈ (setCellValue s row col value fromRemote forceCommit).1.userGrid, kv.2 ≠ "") ∧
    (value = "" →
      jsGet (setCellValue s row col value fromRemote forceCommit).1.userGrid (row, col) = none ∧
      (row, col) ∉ (setCellValue s row col value fromRemote forceCommit).1.pencilCells) ∧
    (value ≠ "" →
      jsGet (setCellValue s row col value fromRemote forceCommit).1.userGrid (row, col) =
        some (toUpperCase value)) := by
  refine ⟨?_, ?_, ?_⟩
  · intro kv hm
    by_cases hv : value = ""
    · simp only [setCellValue, if_pos hv] at hm
      exact hclean kv (mem_of_mem_jsDelete hm)
    · simp only [setCellValue, if_neg hv] at hm
      rcases mem_of_mem_jsSet hm with h | h
      · rw [h]
        exact toUpperCase_ne_empty hv
      · exact hclean kv h
  · intro hv
    constructor
    · simp only [setCellValue, if_pos hv]
      exact jsGet_jsDelete_self hkeys
    · simp only [setCellValue, if_pos hv]
      exact not_mem_jsSetDelete hpencil
  · intro hv
    simp only [setCellValue, if_neg hv]
    exact jsGet_jsSet_self s.userGrid (row, col) (toUpperCase value)

/-- Witness for C10 at a concrete state and edits. -/
theorem c10_witness :
    jsGet (setCellValue sCat 0 2 "x" false false).1.userGrid (0, 2) = some "X" ∧
    jsGet (setCellValue sCat 0 2 "" false false).1.userGrid (0, 2) = none := by
  have h1 := c10_no_empty_entries sCat 0 2 "x" false false (by decide) (by decide)
    (by intro kv hm; simp [sCat, setPuzzle, initialPState] at hm)
  have h2 := c10_no_empty_entries sCat 0 2 "" false false (by decide) (by decide)
    (by intro kv hm; simp [sCat, setPuzzle, initialPState] at hm)
  exact ⟨by simpa using h1.2.2 (by decide), (h2.2.1 rfl).1⟩

/-! ### C9 — `validatePuzzle` completeness and correctness -/

/-- The entered letter for a cell, `userGrid.get(cellKey) || ''`. -/
def entryAt (ug : List ((Nat × Nat) × String)) (pos : Nat × Nat) : String :=
  (jsGet ug pos).getD ""

/-- The cell is non-blocked (white): its answer letter is not `"."`. -/
def isWhite (p : Puzzle) (pos : Nat × Nat) : Bool :=
  !(decide (p.grid.get? (pos.1 * p.cols + pos.2) = some "."))

/-- The cell counts toward completion: white, not pencil-marked, and
holding a non-empty entry. -/
def isCounted (p : Puzzle) (ug : List ((Nat × Nat) × String))
    (pen : List (Nat × Nat)) (pos : Nat × Nat) : Bool :=
  isWhite p pos && !(decide (pos ∈ pen)) && !(decide (entryAt ug pos = ""))

/-- The entry does not match the answer letter case-insensitively. -/
def isMismatch (p : Puzzle) (ug : List ((Nat × Nat) × String)) (pos : Nat × Nat) : Bool :=
  match p.grid.get? (pos.1 * p.cols + pos.2) with
  | some L => toUpperCase (entryAt ug pos) ≠ toUpperCase L
  | none => true

/-- The cell is recorded as incorrect: counted and mismatched. -/
def isIncorrect (p : Puzzle) (ug : List ((Nat × Nat) × String))
    (pen : List (Nat × Nat)) (pos : Nat × Nat) : Bool :=
  isCounted p ug pen pos && isMismatch p ug pos

theorem validateStep_eq (p : Puzzle) (ug : List ((Nat × Nat) × String))
    (pen : List (Nat × Nat)) (acc : ValidateAcc) (pos : Nat × Nat) :
    validateStep p ug pen acc pos =
      ⟨acc.incorrectCells ++ (if isIncorrect p ug pen pos then [pos] else []),
       acc.filledCells + (if isCounted p ug pen pos then 1 else 0),
       acc.totalWhiteCells + (if isWhite p pos then 1 else 0)⟩ := by
  by_cases hdot : p.grid[pos.1 * p.cols + pos.2]? = some "."
  · simp [validateStep, isIncorrect, isCounted, isWhite, isMismatch, entryAt,
      List.get?_eq_getElem?, hdot]
  · by_cases hpen : pos ∈ pen
    · simp [validateStep, isIncorrect, isCounted, isWhite, isMismatch, entryAt,
        List.get?_eq_getElem?, hdot, hpen]
    · by_cases hentry : (jsGet ug pos).getD "" = ""
      · simp [validateStep, isIncorrect, isCounted, isWhite, isMismatch, entryAt,
          List.get?_eq_getElem?, hdot, hpen, hentry]
      · rcases hL : p.grid[pos.1 * p.cols + pos.2]? with _ | L
        · simp [validateStep, isIncorrect, isCounted, isWhite, isMismatch, entryAt,
            List.get?_eq_getElem?, hL, hpen, hentry]
        · have hLdot : ¬(L = ".") := by
            intro hcontra
            exact hdot (by rw [hL, hcontra])
          by_cases hmis : toUpperCase ((jsGet ug pos).getD "") = toUpperCase L
          · simp [validateStep, isIncorrect, isCounted, isWhite, isMismatch, entryAt,
              List.get?_eq_getElem?, hL, hLdot, hpen, hentry, hmis]
          · simp [validateStep, isIncorrect, isCounted, isWhite, isMismatch, entryAt,
              List.get?_eq_getElem?, hL, hLdot, hpen, hentry, hmis]

theorem validate_foldl_eq (p : Puzzle) (ug : List ((Nat × Nat) × String))
    (pen : List (Nat × Nat)) (l : List (Nat × Nat)) (acc : ValidateAcc) :
    l.foldl (validateStep p ug pen) acc =
      ⟨acc.incorrectCells ++ l.filter (isIncorrect p ug pen),
       acc.filledCells + l.countP (isCounted p ug pen),
       acc.totalWhiteCells + l.countP (isWhite p)⟩ := by
  induction l generalizing acc with
  | nil => simp
  | cons pos l ih =>
      rw [List.foldl_cons, ih, validateStep_eq]
      by_cases h1 : isIncorrect p ug pen pos = true <;>
        by_cases h2 : isCounted p ug pen pos = true <;>
          by_cases h3 : isWhite p pos = true <;>
            simp [h1, h2, h3, List.countP_cons, List.filter_cons, Nat.add_assoc,
              Nat.add_comm 1]

theorem countP_eq_countP_iff {α : Type} (l : List α) (p q : α → Bool)
    (h : ∀ a ∈ l, p a = true → q a = true) :
    (l.countP p = l.countP q) ↔ ∀ a ∈ l, q a = true → p a = true := by
  induction l with
  | nil => simp
  | cons a l ih =>
      have hmono : l.countP p ≤ l.countP q :=
        List.countP_mono_left (fun x hx => h x (List.mem_cons_of_mem a hx))
      have ih' := ih (fun x hx => h x (List.mem_cons_of_mem a hx))
      by_cases hp : p a = true
      · have hq : q a = true := h a (List.mem_cons_self a l) hp
        simp [List.countP_cons, hp, hq, ih', hp]
      · have hp' : p a = false := by
          revert hp
          cases p a <;> simp
        by_cases hq : q a = true
        · simp only [List.countP_cons, hp', hq, if_true, Bool.false_eq_true, if_false,
            Nat.add_zero]
          constructor
          · intro heq
            omega
          · intro hall
            exact absurd (hall a (List.mem_cons_self a l) hq) hp
        · simp [List.countP_cons, hp', hq, ih']

theorem mem_posList {rows cols : Nat} {pos : Nat × Nat} :
    pos ∈ posList rows cols ↔ pos.1 < rows ∧ pos.2 < cols := by
  obtain ⟨r, c⟩ := pos
  simp only [posList, List.mem_flatMap, List.mem_map, List.mem_range]
  constructor
  · rintro ⟨r', hr', c', hc', heq⟩
    obtain ⟨rfl, rfl⟩ := Prod.mk.injEq .. ▸ And.intro (congrArg Prod.fst heq).symm
      (congrArg Prod.snd heq).symm
    exact ⟨hr', hc'⟩
  · rintro ⟨hr, hc⟩
    exact ⟨r, hr, c, hc, rfl⟩

/-- C9: under the data-model length invariant, `validatePuzzle` reports
the puzzle complete iff every non-blocked cell is filled — i.e. every
white cell is non-pencil and holds a non-empty entry (pencil-marked
cells are excluded from the completion counting) — and all-correct iff
it is complete and no cell was recorded incorrect, where a cell is
recorded incorrect iff it is white, non-pencil, non-empty, and its entry
mismatches the answer case-insensitively. -/
theorem c9_validatePuzzle_spec (p : Puzzle) (ug : List ((Nat × Nat) × String))
    (pen : List (Nat × Nat)) (hg : p.grid.length = p.rows * p.cols) :
    ((validatePuzzle p ug pen).isComplete = true ↔
      ∀ pos ∈ posList p.rows p.cols, isWhite p pos = true →
        pos ∉ pen ∧ entryAt ug pos ≠ "") ∧
    ((validatePuzzle p ug pen).isAllCorrect = true ↔
      (validatePuzzle p ug pen).incorrectCells = [] ∧
        (validatePuzzle p ug pen).isComplete = true) ∧
    (∀ pos : Nat × Nat, pos ∈ (validatePuzzle p ug pen).incorrectCells ↔
      pos ∈ posList p.rows p.cols ∧ isWhite p pos = true ∧ pos ∉ pen ∧
        entryAt ug pos ≠ "" ∧ isMismatch p ug pos = true) := by
  have hfold := validate_foldl_eq p ug pen (posList p.rows p.cols) ⟨[], 0, 0⟩
  have himp : ∀ pos ∈ posList p.rows p.cols,
      isCounted p ug pen pos = true → isWhite p pos = true := by
    intro pos _ hc
    simp only [isCounted, Bool.and_eq_true] at hc
    exact hc.1.1
  refine ⟨?_, ?_, ?_⟩
  · simp only [validatePuzzle, hfold, decide_eq_true_eq, List.nil_append, Nat.zero_add]
    rw [countP_eq_countP_iff _ _ _ himp]
    constructor
    · intro hall pos hmem hwhite
      have := hall pos hmem hwhite
      simp only [isCounted, Bool.and_eq_true, Bool.not_eq_true', decide_eq_false_iff_not,
        hwhite, true_and] at this
      exact this
    · intro hall pos hmem hwhite
      obtain ⟨h1, h2⟩ := hall pos hmem hwhite
      simp only [isCounted, Bool.and_eq_true, Bool.not_eq_true', decide_eq_false_iff_not,
        hwhite, true_and]
      exact ⟨h1, h2⟩
  · simp only [validatePuzzle, hfold, List.nil_append, Nat.zero_add,
      Bool.and_eq_true, decide_eq_true_eq, List.length_eq_zero]
  · intro pos
    simp only [validatePuzzle, hfold, List.nil_append, Nat.zero_add, List.mem_filter,
      isIncorrect, isCounted, Bool.and_eq_true, Bool.not_eq_true',
      decide_eq_false_iff_not]
    tauto

/-- Witness for C9: on the 2×2 puzzle, a full correct fill is complete
and all-correct; a fill with one pencil cell is not complete. -/
theorem c9_witness :
    p22.grid.length = p22.rows * p22.cols ∧
    (validatePuzzle p22 [((0,0),"C"),((0,1),"A"),((1,0),"T"),((1,1),"S")] []).isComplete = true ∧
    (validatePuzzle p22 [((0,0),"C"),((0,1),"A"),((1,0),"T"),((1,1),"S")] [(1,1)]).isComplete = false := by
  refine ⟨by decide, ?_, by decide⟩
  have h := (c9_validatePuzzle_spec p22 [((0,0),"C"),((0,1),"A"),((1,0),"T"),((1,1),"S")] []
    (by decide)).1
  exact h.mpr (by decide)

/-! ### C6/C7 — navigation between cells and spans -/

/-- The spans of one direction in the clue map's insertion order —
`Array.from(clueMap.values()).filter(c => c.direction === direction)`. -/
def cluesInDir (cm : ClueMap) (d : Dir) : List ClueInfo :=
  (cm.map Prod.snd).filter (fun c => c.direction = d)

/-- C6: letter entry advances the selection — if another cell remains
after the current one in the current `ClueSpan` it moves to that cell;
otherwise it jumps to the first cell of the next `ClueSpan` in the
current direction's span ordering (`(index+1) % spanCount`), and entry
at the last cell of the last span wraps to the first cell of the first
span in that direction. -/
theorem c6_letter_entry_advance
    (g : List (List Cell)) (cm : ClueMap) (row col : Nat) (d : Dir)
    (ck : Nat × Dir) (i : Nat)
    (h1 : getClueKeyForCell g row col d cm = some ck)
    (h2 : (getCellsForClue ck cm).findIdx? (fun c => c = (row, col)) = some i) :
    (∀ nxt : Nat × Nat, i + 1 < (getCellsForClue ck cm).length →
      (getCellsForClue ck cm).get? (i + 1) = some nxt →
      getNextCellInWordOrNextWord g row col d cm = some ⟨nxt.1, nxt.2, d⟩) ∧
    (∀ (ci : Nat) (nextClue : ClueInfo) (fc : Nat × Nat),
      ¬ i + 1 < (getCellsForClue ck cm).length →
      (cluesInDir cm d).findIdx? (fun c => clueInfoKey c = ck) = some ci →
      (cluesInDir cm d).get? ((ci + 1) % (cluesInDir cm d).length) = some nextClue →
      nextClue.cells.head? = some fc →
      getNextCellInWordOrNextWord g row col d cm = some ⟨fc.1, fc.2, d⟩) ∧
    (∀ (ci : Nat) (firstClue : ClueInfo) (fc : Nat × Nat),
      ¬ i + 1 < (getCellsForClue ck cm).length →
      (cluesInDir cm d).findIdx? (fun c => clueInfoKey c = ck) = some ci →
      ci + 1 = (cluesInDir cm d).length →
      (cluesInDir cm d).head? = some firstClue →
      firstClue.cells.head? = some fc →
      getNextCellInWordOrNextWord g row col d cm = some ⟨fc.1, fc.2, d⟩) := by
  refine ⟨?_, ?_, ?_⟩
  · intro nxt hlt hget
    have hcond : i < (getCellsForClue ck cm).length - 1 := by omega
    simp only [getNextCellInWordOrNextWord, h1, h2, if_pos hcond, hget, Option.map_some']
  · intro ci nextClue fc hge hci hget hhead
    have hcond : ¬ i < (getCellsForClue ck cm).length - 1 := by omega
    simp only [getNextCellInWordOrNextWord, h1, h2, if_neg hcond]
    simp only [getNextWord, h1]
    simp only [cluesInDir] at hci hget
    simp only [hci, hget, hhead, Option.map_some']
  · intro ci firstClue fc hge hci hlen hheadc hheadf
    have hcond : ¬ i < (getCellsForClue ck cm).length - 1 := by omega
    have hlenpos : 0 < (cluesInDir cm d).length := by omega
    have hmod : (ci + 1) % (cluesInDir cm d).length = 0 := by
      rw [hlen]
      exact Nat.mod_self _
    have hget : (cluesInDir cm d).get? ((ci + 1) % (cluesInDir cm d).length) = some firstClue := by
      rw [hmod]
      cases hc : cluesInDir cm d with
      | nil => rw [hc] at hheadc; simp at hheadc
      | cons a l => rw [hc] at hheadc; simp at hheadc; simp [hheadc]
    simp only [getNextCellInWordOrNextWord, h1, h2, if_neg hcond]
    simp only [getNextWord, h1]
    simp only [cluesInDir] at hci hget
    simp only [hci, hget, hheadf, Option.map_some']

/-- C7: Tab then Shift+Tab returns to the start cell of the original
span — with both `getNextWord` and `getPreviousWord` wrapping circularly,
this holds for every span of the direction, wrap boundaries included
(the claim's "except at wrap boundaries" carve-out is not needed).
Hypotheses encode that the selection lies in a valid `ClueSpan` of a
well-formed clue map: distinct span keys, and each span's first cell
resolves back to that span's key. -/
theorem c7_tab_then_shift_tab_returns
    (g : List (List Cell)) (cm : ClueMap) (row col : Nat) (d : Dir)
    (ck : Nat × Dir) (ci : Nat)
    (h1 : getClueKeyForCell g row col d cm = some ck)
    (h2 : (cluesInDir cm d).findIdx? (fun c => clueInfoKey c = ck) = some ci)
    (hnodup : ((cluesInDir cm d).map clueInfoKey).Nodup)
    (hspans : ∀ c ∈ cluesInDir cm d, c.cells ≠ [] ∧
        getClueKeyForCell g (c.cells.headD (0, 0)).1 (c.cells.headD (0, 0)).2 d cm =
          some (clueInfoKey c)) :
    ∀ tgt : WordPos, getNextWord g row col d cm = some tgt →
      ∃ (origClue : ClueInfo) (origStart : Nat × Nat),
        (cluesInDir cm d).get? ci = some origClue ∧
        origClue.cells.head? = some origStart ∧
        getPreviousWord g tgt.row tgt.col d cm = some ⟨origStart.1, origStart.2, d⟩ := by
  intro tgt htgt
  have hfoldc : ((cm.map Prod.snd).filter (fun c => c.direction = d)) = cluesInDir cm d := rfl
  have hci_lt : ci < (cluesInDir cm d).length := by
    obtain ⟨h, -, -⟩ := List.findIdx?_eq_some_iff_getElem.mp h2
    exact h
  have hlenpos : 0 < (cluesInDir cm d).length := Nat.lt_of_le_of_lt (Nat.zero_le _) hci_lt
  have hj_lt : (ci + 1) % (cluesInDir cm d).length < (cluesInDir cm d).length :=
    Nat.mod_lt _ hlenpos
  -- the span Tab lands on
  obtain ⟨hfc_ne, hfc_key⟩ :=
    hspans ((cluesInDir cm d)[(ci + 1) % (cluesInDir cm d).length]) (List.getElem_mem hj_lt)
  obtain ⟨fc, hfc⟩ : ∃ fc : Nat × Nat,
      ((cluesInDir cm d)[(ci + 1) % (cluesInDir cm d).length]).cells.headD (0, 0) = fc :=
    ⟨_, rfl⟩
  rw [hfc] at hfc_key
  have hfc_head : ((cluesInDir cm d)[(ci + 1) % (cluesInDir cm d).length]).cells.head? =
      some fc := by
    rw [← hfc]
    cases hc : ((cluesInDir cm d)[(ci + 1) % (cluesInDir cm d).length]).cells with
    | nil => exact absurd hc hfc_ne
    | cons a l => rfl
  have hget_j : (cluesInDir cm d).get? ((ci + 1) % (cluesInDir cm d).length) =
      some ((cluesInDir cm d)[(ci + 1) % (cluesInDir cm d).length]) := by
    rw [List.get?_eq_getElem?, List.getElem?_eq_getElem hj_lt]
  -- compute getNextWord
  have htgt_eq : tgt = ⟨fc.1, fc.2, d⟩ := by
    rw [getNextWord] at htgt
    rw [hfoldc, h1] at htgt
    simp only [h2, hget_j, hfc_head, Option.map_some', Option.some.injEq] at htgt
    exact htgt.symm
  -- findIdx? at the landed span's key is exactly its index, by key distinctness
  have hfind_j : (cluesInDir cm d).findIdx?
      (fun c => clueInfoKey c =
        clueInfoKey ((cluesInDir cm d)[(ci + 1) % (cluesInDir cm d).length])) =
      some ((ci + 1) % (cluesInDir cm d).length) := by
    apply List.findIdx?_eq_some_iff_getElem.mpr
    refine ⟨hj_lt, by simp, ?_⟩
    intro k hk
    have hklen : k < (cluesInDir cm d).length := Nat.lt_trans hk hj_lt
    simp only [decide_eq_true_eq]
    intro hkey
    have hmap : ((cluesInDir cm d).map clueInfoKey).get ⟨k, by simpa using hklen⟩ =
        ((cluesInDir cm d).map clueInfoKey).get
          ⟨(ci + 1) % (cluesInDir cm d).length, by simpa using hj_lt⟩ := by
      simpa using hkey
    have hfin := (List.Nodup.get_inj_iff hnodup).mp hmap
    have hval := congrArg Fin.val hfin
    simp only [] at hval
    omega
  -- the previous index computed by getPreviousWord is ci
  have hprev : (if (ci + 1) % (cluesInDir cm d).length = 0 then (cluesInDir cm d).length - 1
      else (ci + 1) % (cluesInDir cm d).length - 1) = ci := by
    by_cases hwrap : ci + 1 = (cluesInDir cm d).length
    · have hj0 : (ci + 1) % (cluesInDir cm d).length = 0 := by
        rw [hwrap]
        exact Nat.mod_self _
      rw [if_pos hj0]
      omega
    · have hjeq : (ci + 1) % (cluesInDir cm d).length = ci + 1 :=
        Nat.mod_eq_of_lt (by omega)
      rw [if_neg (by omega)]
      omega
  obtain ⟨horig_ne, -⟩ := hspans ((cluesInDir cm d)[ci]) (List.getElem_mem hci_lt)
  obtain ⟨origStart, horig⟩ : ∃ os : Nat × Nat,
      ((cluesInDir cm d)[ci]).cells.headD (0, 0) = os := ⟨_, rfl⟩
  have horig_head : ((cluesInDir cm d)[ci]).cells.head? = some origStart := by
    rw [← horig]
    cases hc : ((cluesInDir cm d)[ci]).cells with
    | nil => exact absurd hc horig_ne
    | cons a l => rfl
  have hget_ci : (cluesInDir cm d).get? ci = some ((cluesInDir cm d)[ci]) := by
    rw [List.get?_eq_getElem?, List.getElem?_eq_getElem hci_lt]
  refine ⟨(cluesInDir cm d)[ci], origStart, hget_ci, horig_head, ?_⟩
  rw [htgt_eq]
  rw [getPreviousWord]
  rw [hfoldc]
  simp only [hfc_key, hfind_j, hprev, hget_ci, horig_head, Option.map_some']

/-- Witness for C6 on the 2×2 puzzle: in-word advance at (0,0) across,
and the wrap from the last cell of the last across span to the first
cell of the first across span. -/
theorem c6_witness :
    getNextCellInWordOrNextWord (buildGrid p22) 0 0 Dir.across (buildClueMap p22) =
      some ⟨0, 1, Dir.across⟩ ∧
    getNextCellInWordOrNextWord (buildGrid p22) 1 1 Dir.across (buildClueMap p22) =
      some ⟨0, 0, Dir.across⟩ := by
  constructor
  · exact (c6_letter_entry_advance (buildGrid p22) (buildClueMap p22) 0 0 Dir.across
      (1, Dir.across) 0 (by decide) (by decide)).1 (0, 1) (by decide) (by decide)
  · exact (c6_letter_entry_advance (buildGrid p22) (buildClueMap p22) 1 1 Dir.across
      (3, Dir.across) 1 (by decide) (by decide)).2.2 1
      ⟨1, "a1", "CA", Dir.across, [(0, 0), (0, 1)]⟩ (0, 0)
      (by decide) (by decide) (by decide) (by decide) (by decide)

/-- Witness for C7 on the 2×2 puzzle: Tab from (0,0) across lands on the
second across span, and Shift+Tab from there returns to (0,0). -/
theorem c7_witness :
    getNextWord (buildGrid p22) 0 0 Dir.across (buildClueMap p22) =
      some ⟨1, 0, Dir.across⟩ ∧
    getPreviousWord (buildGrid p22) 1 0 Dir.across (buildClueMap p22) =
      some ⟨0, 0, Dir.across⟩ := by
  refine ⟨by decide, ?_⟩
  obtain ⟨oc, os, hget, hhead, hres⟩ := c7_tab_then_shift_tab_returns (buildGrid p22)
    (buildClueMap p22) 0 0 Dir.across (1, Dir.across) 0 (by decide) (by decide)
    (by decide) (by decide) ⟨1, 0, Dir.across⟩ (by decide)
  have hoc : oc = ⟨1, "a1", "CA", Dir.across, [(0, 0), (0, 1)]⟩ := by
    have hconc : (cluesInDir (buildClueMap p22) Dir.across).get? 0 =
        some (⟨1, "a1", "CA", Dir.across, [(0, 0), (0, 1)]⟩ : ClueInfo) := by decide
    rw [hconc] at hget
    exact (Option.some.injEq .. ▸ hget).symm
  rw [hoc] at hhead
  have hos : os = (0, 0) := by
    simpa using hhead.symm
  rw [hos] at hres
  exact hres

/-! ### C8 — span counts of `buildClueMap` -/

/-- The clue number stored at a cell (0 when absent; at a span start it
is the actual number). -/
def keyNumAt (g : List (List Cell)) (pos : Nat × Nat) : Nat :=
  ((cellAt g pos.1 pos.2).number).getD 0

/-- The cell opens an across span: non-blocked, numbered, left edge or
blocked on the left, and an in-bounds unblocked right neighbor — the
across guard of the `buildClueMap` scan. -/
def isAcrossStart (p : Puzzle) (g : List (List Cell)) (pos : Nat × Nat) : Bool :=
  !(cellAt g pos.1 pos.2).isBlack && (cellAt g pos.1 pos.2).number.isSome &&
    ((decide (pos.2 = 0) || (cellAt g pos.1 (pos.2 - 1)).isBlack) &&
      decide (pos.2 < p.cols - 1) && !(cellAt g pos.1 (pos.2 + 1)).isBlack)

/-- The cell opens a down span (the symmetric down guard). -/
def isDownStart (p : Puzzle) (g : List (List Cell)) (pos : Nat × Nat) : Bool :=
  !(cellAt g pos.1 pos.2).isBlack && (cellAt g pos.1 pos.2).number.isSome &&
    ((decide (pos.1 = 0) || (cellAt g (pos.1 - 1) pos.2).isBlack) &&
      decide (pos.1 < p.rows - 1) && !(cellAt g (pos.1 + 1) pos.2).isBlack)

/-- All across start cells of the puzzle, in row-major scan order. -/
def acrossStarts (p : Puzzle) : List (Nat × Nat) :=
  (posList p.rows p.cols).filter (isAcrossStart p (buildGrid p))

/-- All down start cells of the puzzle, in row-major scan order. -/
def downStarts (p : Puzzle) : List (Nat × Nat) :=
  (posList p.rows p.cols).filter (isDownStart p (buildGrid p))

/-- The across half of one `buildClueMap` scan step. -/
def acrossPhase (p : Puzzle) (g : List (List Cell)) (s : ClueScanState)
    (pos : Nat × Nat) : ClueScanState :=
  let row := pos.1
  let col := pos.2
  let cell := cellAt g row col
  if cell.isBlack then s else
  match cell.number with
  | none => s
  | some clueNumber =>
      let startsAcross := decide (col = 0) || (cellAt g row (col - 1)).isBlack
      if startsAcross && decide (col < p.cols - 1) && !(cellAt g row (col + 1)).isBlack then
        if s.acrossIndex < p.cluesAcross.length then
          { map := jsSet s.map (clueNumber, Dir.across)
              { number := clueNumber
                clue := p.cluesAcross.getD s.acrossIndex ""
                answer := p.answersAcross.getD s.acrossIndex ""
                direction := Dir.across
                cells := walkAcross g row col (p.cols - col) }
            acrossIndex := s.acrossIndex + 1
            downIndex := s.downIndex }
        else s
      else s

/-- The down half of one `buildClueMap` scan step. -/
def downPhase (p : Puzzle) (g : List (List Cell)) (s : ClueScanState)
    (pos : Nat × Nat) : ClueScanState :=
  let row := pos.1
  let col := pos.2
  let cell := cellAt g row col
  if cell.isBlack then s else
  match cell.number with
  | none => s
  | some clueNumber =>
      let startsDown := decide (row = 0) || (cellAt g (row - 1) col).isBlack
      if startsDown && decide (row < p.rows - 1) && !(cellAt g (row + 1) col).isBlack then
        if s.downIndex < p.cluesDown.length then
          { map := jsSet s.map (clueNumber, Dir.down)
              { number := clueNumber
                clue := p.cluesDown.getD s.downIndex ""
                answer := p.answersDown.getD s.downIndex ""
                direction := Dir.down
                cells := walkDown g col row (p.rows - row) }
            acrossIndex := s.acrossIndex
            downIndex := s.downIndex + 1 }
        else s
      else s

theorem clueScanStep_decompose (p : Puzzle) (g : List (List Cell)) (s : ClueScanState)
    (pos : Nat × Nat) :
    clueScanStep p g s pos = downPhase p g (acrossPhase p g s pos) pos := by
  cases hb : (cellAt g pos.1 pos.2).isBlack
  · cases hn : (cellAt g pos.1 pos.2).number
    · simp [clueScanStep, acrossPhase, downPhase, hb, hn]
    · simp [clueScanStep, acrossPhase, downPhase, hb, hn]
  · simp [clueScanStep, acrossPhase, downPhase, hb]

theorem acrossPhase_of_not_start (p : Puzzle) (g : List (List Cell)) (s : ClueScanState)
    (pos : Nat × Nat) (h : isAcrossStart p g pos = false) :
    acrossPhase p g s pos = s := by
  cases hb : (cellAt g pos.1 pos.2).isBlack
  · cases hn : (cellAt g pos.1 pos.2).number
    · simp [acrossPhase, hb, hn]
    · by_cases hA : ((decide (pos.2 = 0) || (cellAt g pos.1 (pos.2 - 1)).isBlack) &&
          decide (pos.2 < p.cols - 1) && !(cellAt g pos.1 (pos.2 + 1)).isBlack) = true
      · exfalso
        rw [isAcrossStart, hb, hn, hA] at h
        simp at h
      · simp only [acrossPhase, hb, Bool.false_eq_true, if_false, hn]
        rw [if_neg hA]
  · simp [acrossPhase, hb]

theorem acrossPhase_of_start (p : Puzzle) (g : List (List Cell)) (s : ClueScanState)
    (pos : Nat × Nat) (h : isAcrossStart p g pos = true) :
    (s.acrossIndex < p.cluesAcross.length →
      ∃ info : ClueInfo,
        acrossPhase p g s pos =
          { map := jsSet s.map (keyNumAt g pos, Dir.across) info,
            acrossIndex := s.acrossIndex + 1, downIndex := s.downIndex }) ∧
    (¬ s.acrossIndex < p.cluesAcross.length → acrossPhase p g s pos = s) := by
  rw [isAcrossStart] at h
  have hA := (Bool.and_eq_true ..).mp h
  have hb : (cellAt g pos.1 pos.2).isBlack = false := by
    have := ((Bool.and_eq_true ..).mp hA.1).1
    revert this
    cases (cellAt g pos.1 pos.2).isBlack <;> simp
  have hn := ((Bool.and_eq_true ..).mp hA.1).2
  rcases hn' : (cellAt g pos.1 pos.2).number with _ | n
  · rw [hn'] at hn
    simp at hn
  · constructor
    · intro hidx
      refine ⟨ClueInfo.mk n (p.cluesAcross.getD s.acrossIndex "")
        (p.answersAcross.getD s.acrossIndex "") Dir.across
        (walkAcross g pos.1 pos.2 (p.cols - pos.2)), ?_⟩
      simp only [acrossPhase, hb, Bool.false_eq_true, if_false, hn']
      rw [if_pos hA.2, if_pos hidx]
      rw [keyNumAt, hn']
      rfl
    · intro hidx
      simp only [acrossPhase, hb, Bool.false_eq_true, if_false, hn']
      rw [if_pos hA.2, if_neg hidx]

theorem downPhase_of_not_start (p : Puzzle) (g : List (List Cell)) (s : ClueScanState)
    (pos : Nat × Nat) (h : isDownStart p g pos = false) :
    downPhase p g s pos = s := by
  cases hb : (cellAt g pos.1 pos.2).isBlack
  · cases hn : (cellAt g pos.1 pos.2).number
    · simp [downPhase, hb, hn]
    · by_cases hA : ((decide (pos.1 = 0) || (cellAt g (pos.1 - 1) pos.2).isBlack) &&
          decide (pos.1 < p.rows - 1) && !(cellAt g (pos.1 + 1) pos.2).isBlack) = true
      · exfalso
        rw [isDownStart, hb, hn, hA] at h
        simp at h
      · simp only [downPhase, hb, Bool.false_eq_true, if_false, hn]
        rw [if_neg hA]
  · simp [downPhase, hb]

theorem downPhase_of_start (p : Puzzle) (g : List (List Cell)) (s : ClueScanState)
    (pos : Nat × Nat) (h : isDownStart p g pos = true) :
    (s.downIndex < p.cluesDown.length →
      ∃ info : ClueInfo,
        downPhase p g s pos =
          { map := jsSet s.map (keyNumAt g pos, Dir.down) info,
            acrossIndex := s.acrossIndex, downIndex := s.downIndex + 1 }) ∧
    (¬ s.downIndex < p.cluesDown.length → downPhase p g s pos = s) := by
  rw [isDownStart] at h
  have hA := (Bool.and_eq_true ..).mp h
  have hb : (cellAt g pos.1 pos.2).isBlack = false := by
    have := ((Bool.and_eq_true ..).mp hA.1).1
    revert this
    cases (cellAt g pos.1 pos.2).isBlack <;> simp
  have hn := ((Bool.and_eq_true ..).mp hA.1).2
  rcases hn' : (cellAt g pos.1 pos.2).number with _ | n
  · rw [hn'] at hn
    simp at hn
  · constructor
    · intro hidx
      refine ⟨ClueInfo.mk n (p.cluesDown.getD s.downIndex "")
        (p.answersDown.getD s.downIndex "") Dir.down
        (walkDown g pos.2 pos.1 (p.rows - pos.1)), ?_⟩
      simp only [downPhase, hb, Bool.false_eq_true, if_false, hn']
      rw [if_pos hA.2, if_pos hidx]
      rw [keyNumAt, hn']
      rfl
    · intro hidx
      simp only [downPhase, hb, Bool.false_eq_true, if_false, hn']
      rw [if_pos hA.2, if_neg hidx]

theorem keys_jsSet_of_not_mem {κ α : Type} [DecidableEq κ] {m : List (κ × α)} {k : κ}
    (v : α) (h : k ∉ m.map Prod.fst) :
    (jsSet m k v).map Prod.fst = m.map Prod.fst ++ [k] := by
  induction m with
  | nil => simp [jsSet]
  | cons kv rest ih =>
      obtain ⟨k', v'⟩ := kv
      simp only [List.map_cons, List.mem_cons, not_or] at h
      simp only [jsSet, if_neg (Ne.symm h.1), List.map_cons, List.cons_append,
        List.cons.injEq, true_and]
      exact ih h.2

/-- The key a scan phase would insert for a start cell. -/
def startKey (g : List (List Cell)) (d : Dir) (pos : Nat × Nat) : Nat × Dir :=
  (keyNumAt g pos, d)

theorem acrossPhase_invariant (p : Puzzle) (g : List (List Cell)) (s : ClueScanState)
    (pos : Nat × Nat) (as : List (Nat × Nat)) (DK : List (Nat × Dir))
    (hfresh : isAcrossStart p g pos = true → keyNumAt g pos ∉ as.map (keyNumAt g))
    (hKA : (s.map.map Prod.fst).filter (fun k => k.2 = Dir.across) =
      (as.take p.cluesAcross.length).map (startKey g Dir.across))
    (hKD : (s.map.map Prod.fst).filter (fun k => k.2 = Dir.down) = DK)
    (hIA : s.acrossIndex = min as.length p.cluesAcross.length) :
    (((acrossPhase p g s pos).map.map Prod.fst).filter (fun k => k.2 = Dir.across) =
      ((as ++ if isAcrossStart p g pos = true then [pos] else []).take
        p.cluesAcross.length).map (startKey g Dir.across)) ∧
    (((acrossPhase p g s pos).map.map Prod.fst).filter (fun k => k.2 = Dir.down) = DK) ∧
    ((acrossPhase p g s pos).acrossIndex =
      min (as ++ if isAcrossStart p g pos = true then [pos] else []).length
        p.cluesAcross.length) ∧
    (acrossPhase p g s pos).downIndex = s.downIndex := by
  by_cases hstart : isAcrossStart p g pos = true
  · by_cases hidx : s.acrossIndex < p.cluesAcross.length
    · obtain ⟨info, heq⟩ := (acrossPhase_of_start p g s pos hstart).1 hidx
      have haslen : as.length < p.cluesAcross.length := by
        rcases Nat.le_total as.length p.cluesAcross.length with hle | hle
        · have := Nat.min_eq_left hle
          omega
        · have := Nat.min_eq_right hle
          omega
      have hfr : (keyNumAt g pos, Dir.across) ∉ s.map.map Prod.fst := by
        intro hmem
        have h1 : (keyNumAt g pos, Dir.across) ∈
            (s.map.map Prod.fst).filter (fun k => k.2 = Dir.across) :=
          List.mem_filter.mpr ⟨hmem, by simp⟩
        rw [hKA] at h1
        obtain ⟨q, hq, hqe⟩ := List.mem_map.mp h1
        have h2 : keyNumAt g pos ∈ (as.take p.cluesAcross.length).map (keyNumAt g) :=
          List.mem_map.mpr ⟨q, hq, congrArg Prod.fst hqe⟩
        exact hfresh hstart
          (List.map_subset (keyNumAt g) (List.take_subset _ _) h2)
      rw [heq]
      simp only [if_pos hstart]
      have hkeys := keys_jsSet_of_not_mem (m := s.map) (k := (keyNumAt g pos, Dir.across))
        info hfr
      have htake1 : as.take p.cluesAcross.length = as :=
        List.take_of_length_le (Nat.le_of_lt haslen)
      have htake2 : (as ++ [pos]).take p.cluesAcross.length = as ++ [pos] := by
        apply List.take_of_length_le
        simp only [List.length_append, List.length_cons, List.length_nil]
        omega
      refine ⟨?_, ?_, ?_, trivial⟩
      · rw [hkeys, List.filter_append, hKA, htake1, htake2]
        simp [startKey]
      · rw [hkeys, List.filter_append, hKD]
        simp
      · simp only [List.length_append, List.length_cons, List.length_nil]
        omega
    · have heq := (acrossPhase_of_start p g s pos hstart).2 hidx
      have haslen : p.cluesAcross.length ≤ as.length := by
        rcases Nat.le_total as.length p.cluesAcross.length with hle | hle
        · have := Nat.min_eq_left hle
          omega
        · exact hle
      have htake : (as ++ [pos]).take p.cluesAcross.length =
          as.take p.cluesAcross.length :=
        List.take_append_of_le_length haslen
      rw [heq]
      simp only [if_pos hstart]
      refine ⟨by rw [hKA, htake], hKD, ?_, trivial⟩
      simp only [List.length_append, List.length_cons, List.length_nil]
      omega
  · rw [acrossPhase_of_not_start p g s pos (by revert hstart; cases isAcrossStart p g pos <;> simp)]
    simp only [if_neg hstart, List.append_nil]
    exact ⟨hKA, hKD, hIA, trivial⟩

theorem downPhase_invariant (p : Puzzle) (g : List (List Cell)) (s : ClueScanState)
    (pos : Nat × Nat) (ds : List (Nat × Nat)) (AK : List (Nat × Dir))
    (hfresh : isDownStart p g pos = true → keyNumAt g pos ∉ ds.map (keyNumAt g))
    (hKD : (s.map.map Prod.fst).filter (fun k => k.2 = Dir.down) =
      (ds.take p.cluesDown.length).map (startKey g Dir.down))
    (hKA : (s.map.map Prod.fst).filter (fun k => k.2 = Dir.across) = AK)
    (hID : s.downIndex = min ds.length p.cluesDown.length) :
    (((downPhase p g s pos).map.map Prod.fst).filter (fun k => k.2 = Dir.down) =
      ((ds ++ if isDownStart p g pos = true then [pos] else []).take
        p.cluesDown.length).map (startKey g Dir.down)) ∧
    (((downPhase p g s pos).map.map Prod.fst).filter (fun k => k.2 = Dir.across) = AK) ∧
    ((downPhase p g s pos).downIndex =
      min (ds ++ if isDownStart p g pos = true then [pos] else []).length
        p.cluesDown.length) ∧
    (downPhase p g s pos).acrossIndex = s.acrossIndex := by
  by_cases hstart : isDownStart p g pos = true
  · by_cases hidx : s.downIndex < p.cluesDown.length
    · obtain ⟨info, heq⟩ := (downPhase_of_start p g s pos hstart).1 hidx
      have haslen : ds.length < p.cluesDown.length := by
        rcases Nat.le_total ds.length p.cluesDown.length with hle | hle
        · have := Nat.min_eq_left hle
          omega
        · have := Nat.min_eq_right hle
          omega
      have hfr : (keyNumAt g pos, Dir.down) ∉ s.map.map Prod.fst := by
        intro hmem
        have h1 : (keyNumAt g pos, Dir.down) ∈
            (s.map.map Prod.fst).filter (fun k => k.2 = Dir.down) :=
          List.mem_filter.mpr ⟨hmem, by simp⟩
        rw [hKD] at h1
        obtain ⟨q, hq, hqe⟩ := List.mem_map.mp h1
        have h2 : keyNumAt g pos ∈ (ds.take p.cluesDown.length).map (keyNumAt g) :=
          List.mem_map.mpr ⟨q, hq, congrArg Prod.fst hqe⟩
        exact hfresh hstart
          (List.map_subset (keyNumAt g) (List.take_subset _ _) h2)
      rw [heq]
      simp only [if_pos hstart]
      have hkeys := keys_jsSet_of_not_mem (m := s.map) (k := (keyNumAt g pos, Dir.down))
        info hfr
      have htake1 : ds.take p.cluesDown.length = ds :=
        List.take_of_length_le (Nat.le_of_lt haslen)
      have htake2 : (ds ++ [pos]).take p.cluesDown.length = ds ++ [pos] := by
        apply List.take_of_length_le
        simp only [List.length_append, List.length_cons, List.length_nil]
        omega
      refine ⟨?_, ?_, ?_, trivial⟩
      · rw [hkeys, List.filter_append, hKD, htake1, htake2]
        simp [startKey]
      · rw [hkeys, List.filter_append, hKA]
        simp
      · simp only [List.length_append, List.length_cons, List.length_nil]
        omega
    · have heq := (downPhase_of_start p g s pos hstart).2 hidx
      have haslen : p.cluesDown.length ≤ ds.length := by
        rcases Nat.le_total ds.length p.cluesDown.length with hle | hle
        · have := Nat.min_eq_left hle
          omega
        · exact hle
      have htake : (ds ++ [pos]).take p.cluesDown.length =
          ds.take p.cluesDown.length :=
        List.take_append_of_le_length haslen
      rw [heq]
      simp only [if_pos hstart]
      refine ⟨by rw [hKD, htake], hKA, ?_, trivial⟩
      simp only [List.length_append, List.length_cons, List.length_nil]
      omega
  · rw [downPhase_of_not_start p g s pos (by revert hstart; cases isDownStart p g pos <;> simp)]
    simp only [if_neg hstart, List.append_nil]
    exact ⟨hKD, hKA, hID, trivial⟩

theorem clueScan_foldl_keys (p : Puzzle) (g : List (List Cell)) :
    ∀ (l : List (Nat × Nat)) (s : ClueScanState) (as ds : List (Nat × Nat)),
    ((as ++ l.filter (isAcrossStart p g)).map (keyNumAt g)).Nodup →
    ((ds ++ l.filter (isDownStart p g)).map (keyNumAt g)).Nodup →
    (s.map.map Prod.fst).filter (fun k => k.2 = Dir.across) =
      (as.take p.cluesAcross.length).map (startKey g Dir.across) →
    (s.map.map Prod.fst).filter (fun k => k.2 = Dir.down) =
      (ds.take p.cluesDown.length).map (startKey g Dir.down) →
    s.acrossIndex = min as.length p.cluesAcross.length →
    s.downIndex = min ds.length p.cluesDown.length →
    (((l.foldl (clueScanStep p g) s).map.map Prod.fst).filter (fun k => k.2 = Dir.across) =
      ((as ++ l.filter (isAcrossStart p g)).take p.cluesAcross.length).map
        (startKey g Dir.across)) ∧
    (((l.foldl (clueScanStep p g) s).map.map Prod.fst).filter (fun k => k.2 = Dir.down) =
      ((ds ++ l.filter (isDownStart p g)).take p.cluesDown.length).map
        (startKey g Dir.down)) := by
  intro l
  induction l with
  | nil =>
      intro s as ds _ _ hKA hKD _ _
      simp only [List.foldl_nil, List.filter_nil, List.append_nil]
      exact ⟨hKA, hKD⟩
  | cons pos l ih =>
      intro s as ds hnodA hnodD hKA hKD hIA hID
      rw [List.foldl_cons, clueScanStep_decompose]
      have hfreshA : isAcrossStart p g pos = true → keyNumAt g pos ∉ as.map (keyNumAt g) := by
        intro hstart
        have hfc : (pos :: l).filter (isAcrossStart p g) =
            pos :: l.filter (isAcrossStart p g) := by
          simp [List.filter_cons, hstart]
        rw [hfc, List.map_append] at hnodA
        have hd := (List.nodup_append.mp hnodA).2.2
        intro hmem
        exact (hd hmem) (by simp)
      have hfreshD : isDownStart p g pos = true → keyNumAt g pos ∉ ds.map (keyNumAt g) := by
        intro hstart
        have hfc : (pos :: l).filter (isDownStart p g) =
            pos :: l.filter (isDownStart p g) := by
          simp [List.filter_cons, hstart]
        rw [hfc, List.map_append] at hnodD
        have hd := (List.nodup_append.mp hnodD).2.2
        intro hmem
        exact (hd hmem) (by simp)
      obtain ⟨hKA1, hKD1, hIA1, hDI1⟩ :=
        acrossPhase_invariant p g s pos as ((ds.take p.cluesDown.length).map
          (startKey g Dir.down)) hfreshA hKA hKD hIA
      obtain ⟨hKD2, hKA2, hID2, hAI2⟩ :=
        downPhase_invariant p g (acrossPhase p g s pos) pos ds
          (((as ++ if isAcrossStart p g pos = true then [pos] else []).take
            p.cluesAcross.length).map (startKey g Dir.across))
          hfreshD hKD1 hKA1 (by rw [hDI1, hID])
      have hax : (as ++ if isAcrossStart p g pos = true then [pos] else []) ++
          l.filter (isAcrossStart p g) = as ++ (pos :: l).filter (isAcrossStart p g) := by
        by_cases hstart : isAcrossStart p g pos = true <;>
          simp [List.filter_cons, hstart]
      have hdx : (ds ++ if isDownStart p g pos = true then [pos] else []) ++
          l.filter (isDownStart p g) = ds ++ (pos :: l).filter (isDownStart p g) := by
        by_cases hstart : isDownStart p g pos = true <;>
          simp [List.filter_cons, hstart]
      have hres := ih (downPhase p g (acrossPhase p g s pos) pos)
        (as ++ if isAcrossStart p g pos = true then [pos] else [])
        (ds ++ if isDownStart p g pos = true then [pos] else [])
        (by rw [hax]; exact hnodA) (by rw [hdx]; exact hnodD)
        hKA2 hKD2 (by rw [hAI2, hIA1]) hID2
      rw [← hax, ← hdx]
      exact hres

theorem buildClueMap_keys (p : Puzzle)
    (hA : ((acrossStarts p).map (keyNumAt (buildGrid p))).Nodup)
    (hD : ((downStarts p).map (keyNumAt (buildGrid p))).Nodup) :
    (((buildClueMap p).map Prod.fst).filter (fun k => k.2 = Dir.across) =
      ((acrossStarts p).take p.cluesAcross.length).map
        (startKey (buildGrid p) Dir.across)) ∧
    (((buildClueMap p).map Prod.fst).filter (fun k => k.2 = Dir.down) =
      ((downStarts p).take p.cluesDown.length).map (startKey (buildGrid p) Dir.down)) := by
  have hres := clueScan_foldl_keys p (buildGrid p) (posList p.rows p.cols)
    ⟨[], 0, 0⟩ [] []
    (by simpa [acrossStarts] using hA) (by simpa [downStarts] using hD)
    (by simp) (by simp) (by simp) (by simp)
  simpa [buildClueMap, acrossStarts, downStarts] using hres

/-- C8: under the data-model well-formedness conditions — clue numbers at
span starts are distinct, and the across/down clue lists have exactly as
many entries as the grid has across/down start cells (the spec's "clue
lists are ordered to match the scan order of word starts") — the
Clue-Cell Mapper produces exactly as many across `ClueSpan`s as there
are entries in the across clue list, and symmetrically for down. -/
theorem c8_span_counts (p : Puzzle)
    (hA : ((acrossStarts p).map (keyNumAt (buildGrid p))).Nodup)
    (hD : ((downStarts p).map (keyNumAt (buildGrid p))).Nodup)
    (hlenA : (acrossStarts p).length = p.cluesAcross.length)
    (hlenD : (downStarts p).length = p.cluesDown.length) :
    (((buildClueMap p).map Prod.fst).filter (fun k => k.2 = Dir.across)).length =
      p.cluesAcross.length ∧
    (((buildClueMap p).map Prod.fst).filter (fun k => k.2 = Dir.down)).length =
      p.cluesDown.length := by
  obtain ⟨h1, h2⟩ := buildClueMap_keys p hA hD
  constructor
  · rw [h1, List.length_map, List.length_take, hlenA, Nat.min_self]
  · rw [h2, List.length_map, List.length_take, hlenD, Nat.min_self]

/-- Witness for C8 on the 2×2 puzzle: two across spans for two across
clues, two down spans for two down clues. -/
theorem c8_witness :
    (((buildClueMap p22).map Prod.fst).filter (fun k => k.2 = Dir.across)).length = 2 ∧
    (((buildClueMap p22).map Prod.fst).filter (fun k => k.2 = Dir.down)).length = 2 :=
  c8_span_counts p22 (by decide) (by decide) (by decide) (by decide)

/-! ### C2 — rate-limited publish path of `useAbly` -/

theorem lastVal_append (l1 l2 : List CellEditEv) (k : Nat × Nat) :
    lastVal (l1 ++ l2) k = (lastVal l2 k).or (lastVal l1 k) := by
  simp only [lastVal, List.reverse_append, List.find?_append]
  cases l2.reverse.find? (fun e => cellKey e = k) <;> simp

theorem lastVal_nil (k : Nat × Nat) : lastVal [] k = none := rfl

theorem lastVal_singleton (e : CellEditEv) (k : Nat × Nat) :
    lastVal [e] k = if cellKey e = k then some e.value else none := by
  simp only [lastVal, List.reverse_singleton, List.find?_singleton]
  by_cases h : cellKey e = k <;> simp [h]

theorem lastVal_eq_none_of_keys {m : List ((Nat × Nat) × CellEditEv)} {k : Nat × Nat}
    (hcons : ∀ kv ∈ m, cellKey kv.2 = kv.1) (hout : k ∉ m.map Prod.fst) :
    lastVal (m.map Prod.snd) k = none := by
  simp only [lastVal, Option.map_eq_none', List.find?_eq_none]
  intro x hx
  rw [List.mem_reverse, List.mem_map] at hx
  obtain ⟨kv, hkv, rfl⟩ := hx
  simp only [decide_eq_true_eq]
  intro hk
  apply hout
  rw [← hk, hcons kv hkv]
  exact List.mem_map.mpr ⟨kv, hkv, rfl⟩

theorem keys_jsSet_of_mem {κ α : Type} [DecidableEq κ] {m : List (κ × α)} {k : κ}
    (v : α) (h : k ∈ m.map Prod.fst) :
    (jsSet m k v).map Prod.fst = m.map Prod.fst := by
  induction m with
  | nil => simp at h
  | cons kv rest ih =>
      obtain ⟨k', v'⟩ := kv
      by_cases hk : k' = k
      · simp [jsSet, hk]
      · simp only [List.map_cons, List.mem_cons] at h
        rcases h with h | h
        · exact absurd h.symm hk
        · simp [jsSet, hk, ih h]

theorem keys_nodup_jsSet {κ α : Type} [DecidableEq κ] {m : List (κ × α)} {k : κ}
    (v : α) (h : (m.map Prod.fst).Nodup) : ((jsSet m k v).map Prod.fst).Nodup := by
  by_cases hm : k ∈ m.map Prod.fst
  · rw [keys_jsSet_of_mem v hm]
    exact h
  · rw [keys_jsSet_of_not_mem v hm]
    simp only [List.nodup_append, List.nodup_cons, List.not_mem_nil, not_false_iff,
      List.nodup_nil, and_true, true_and]
    constructor
    · exact h
    · intro a ha hb
      simp only [List.mem_singleton] at hb
      exact hm (hb ▸ ha)

theorem lastVal_values_jsSet (m : List ((Nat × Nat) × CellEditEv)) (e : CellEditEv)
    (k : Nat × Nat) (hcons : ∀ kv ∈ m, cellKey kv.2 = kv.1)
    (hnodup : (m.map Prod.fst).Nodup) :
    lastVal ((jsSet m (cellKey e) e).map Prod.snd) k =
      if cellKey e = k then some e.value else lastVal (m.map Prod.snd) k := by
  induction m with
  | nil =>
      simp only [jsSet, List.map_cons, List.map_nil]
      rw [show ([e] : List CellEditEv) = [] ++ [e] from rfl, lastVal_append, lastVal_singleton]
      by_cases h : cellKey e = k <;> simp [h, lastVal_nil]
  | cons kv rest ih =>
      obtain ⟨k', v'⟩ := kv
      have hv' : cellKey v' = k' := hcons (k', v') (List.mem_cons_self _ _)
      simp only [List.map_cons, List.nodup_cons] at hnodup
      have hcons' : ∀ kv ∈ rest, cellKey kv.2 = kv.1 :=
        fun kv hkv => hcons kv (List.mem_cons_of_mem _ hkv)
      by_cases hk : k' = cellKey e
      · simp only [jsSet, if_pos hk, List.map_cons]
        rw [show (e :: rest.map Prod.snd) = [e] ++ rest.map Prod.snd from rfl,
          lastVal_append,
          show (v' :: rest.map Prod.snd) = [v'] ++ rest.map Prod.snd from rfl,
          lastVal_append, lastVal_singleton, lastVal_singleton, hv', hk]
        by_cases hke : cellKey e = k
        · have hnone : lastVal (rest.map Prod.snd) k = none :=
            lastVal_eq_none_of_keys hcons' (by rw [← hke, ← hk]; exact hnodup.1)
          rw [hnone]
          simp [hke]
        · simp [hke]
      · simp only [jsSet, if_neg hk, List.map_cons]
        rw [show (v' :: (jsSet rest (cellKey e) e).map Prod.snd) =
            [v'] ++ (jsSet rest (cellKey e) e).map Prod.snd from rfl,
          lastVal_append,
          show (v' :: rest.map Prod.snd) = [v'] ++ rest.map Prod.snd from rfl,
          lastVal_append, ih hcons' hnodup.2]
        by_cases hke : cellKey e = k
        · simp [hke]
        · simp [hke]

theorem lastVal_coalesce_fold (q : List CellEditEv) :
    ∀ (m : List ((Nat × Nat) × CellEditEv)) (k : Nat × Nat),
    (∀ kv ∈ m, cellKey kv.2 = kv.1) → (m.map Prod.fst).Nodup →
    lastVal ((q.foldl (fun m e => jsSet m (cellKey e) e) m).map Prod.snd) k =
      (lastVal q k).or (lastVal (m.map Prod.snd) k) := by
  induction q with
  | nil =>
      intro m k _ _
      simp [lastVal_nil]
  | cons e q ih =>
      intro m k hcons hnodup
      have hcons' : ∀ kv ∈ jsSet m (cellKey e) e, cellKey kv.2 = kv.1 := by
        intro kv hkv
        rcases mem_of_mem_jsSet hkv with h | h
        · rw [h]
        · exact hcons kv h
      have hnodup' := keys_nodup_jsSet (m := m) (k := cellKey e) e hnodup
      rw [List.foldl_cons, ih (jsSet m (cellKey e) e) k hcons' hnodup',
        lastVal_values_jsSet m e k hcons hnodup,
        show (e :: q) = [e] ++ q from rfl, lastVal_append, lastVal_singleton]
      cases hq : lastVal q k with
      | some x => simp
      | none =>
          by_cases hke : cellKey e = k <;> simp [hke]

/-- The flush coalescing preserves the last value per cell: only the most
recent queued edit per cell key survives. -/
theorem lastVal_coalesceQueue (q : List CellEditEv) (k : Nat × Nat) :
    lastVal (coalesceQueue q) k = lastVal q k := by
  rw [coalesceQueue, lastVal_coalesce_fold q [] k (by simp) (by simp)]
  simp [lastVal_nil, Option.or_none]

/-- Rate-limiter bookkeeping invariant at wall-clock time `T`: the live
timestamp list is exactly the immediate-send times still inside the
window, all recorded times are in the past, and no window ever saw more
than 20 immediate sends. -/
def PubInv (s : PubState) (T : Nat) : Prop :=
  s.editTimestamps = s.immediateTimes.filter (fun x => T - x < 1000) ∧
  (∀ x ∈ s.immediateTimes, x ≤ T) ∧
  slidingWindowOk s.immediateTimes

theorem doFlush_editTimestamps (s : PubState) :
    (doFlush s).editTimestamps = s.editTimestamps := rfl

theorem doFlush_immediateTimes (s : PubState) :
    (doFlush s).immediateTimes = s.immediateTimes := rfl

theorem pubStep_flush_part (s : PubState) (inp : Nat × CellEditEv) :
    pubStep s inp =
      doPublish (match s.flushAt with
        | some ft => if ft ≤ inp.1 then doFlush s else s
        | none => s) inp.1 inp.2 := rfl

theorem pubInv_flush (s : PubState) (T : Nat) (h : PubInv s T) : PubInv (doFlush s) T := h

theorem pubInv_doPublish (s : PubState) (T t : Nat) (e : CellEditEv) (hT : T ≤ t)
    (h : PubInv s T) : PubInv (doPublish s t e) t := by
  obtain ⟨hts, hle, hwin⟩ := h
  have hfilter : s.editTimestamps.filter (fun x => t - x < 1000) =
      s.immediateTimes.filter (fun x => t - x < 1000) := by
    rw [hts, List.filter_filter]
    apply List.filter_congr
    intro x _
    by_cases hx : t - x < 1000
    · have hTx : T - x < 1000 :=
        Nat.lt_of_le_of_lt (Nat.sub_le_sub_right hT x) hx
      simp [hx, hTx]
    · simp [hx]
  rw [doPublish]
  by_cases hlim : 20 ≤ (s.editTimestamps.filter (fun x => t - x < 1000)).length
  · rw [if_pos hlim]
    refine ⟨hfilter, fun x hx => Nat.le_trans (hle x hx) hT, hwin⟩
  · rw [if_neg hlim]
    refine ⟨?_, ?_, ?_⟩
    · simp only [List.filter_append, hfilter]
      have : (t - t < 1000) = True := by simp
      simp [List.filter_cons]
    · intro x hx
      rcases List.mem_append.mp hx with hx | hx
      · exact Nat.le_trans (hle x hx) hT
      · simp only [List.mem_singleton] at hx
        exact Nat.le_of_eq hx
    · intro q
      rw [List.countP_append]
      by_cases hin : (decide (q ≤ t) && decide (t < q + 1000)) = true
      · have hsub : s.immediateTimes.countP
            (fun x => decide (q ≤ x) && decide (x < q + 1000)) ≤
            (s.immediateTimes.filter (fun x => t - x < 1000)).length := by
          rw [← List.countP_eq_length_filter]
          apply List.countP_mono_left
          intro x _ hx
          simp only [Bool.and_eq_true, decide_eq_true_eq] at hin hx
          simp only [decide_eq_true_eq]
          have h1 : t - x ≤ t - q := Nat.sub_le_sub_left hx.1 t
          have h2 : t - q < 1000 := by omega
          omega
        rw [← hfilter] at hsub
        have hcount : s.immediateTimes.countP
            (fun x => decide (q ≤ x) && decide (x < q + 1000)) ≤ 19 := by omega
        have hones : List.countP (fun x => decide (q ≤ x) && decide (x < q + 1000)) [t] ≤ 1 := by
          rw [List.countP_cons, List.countP_nil]
          split <;> omega
        omega
      · have hin' : (decide (q ≤ t) && decide (t < q + 1000)) = false := by
          revert hin
          cases (decide (q ≤ t) && decide (t < q + 1000)) <;> simp
        have hzero : List.countP (fun x => decide (q ≤ x) && decide (x < q + 1000)) [t] = 0 := by
          rw [List.countP_cons, List.countP_nil, hin']
          simp
        rw [hzero]
        have := hwin q
        omega

theorem pubInv_pubStep (s : PubState) (T : Nat) (inp : Nat × CellEditEv) (hT : T ≤ inp.1)
    (h : PubInv s T) : PubInv (pubStep s inp) inp.1 := by
  rw [pubStep_flush_part]
  rcases hf : s.flushAt with _ | ft
  · exact pubInv_doPublish s T inp.1 inp.2 hT h
  · show PubInv (doPublish (if ft ≤ inp.1 then doFlush s else s) inp.1 inp.2) inp.1
    by_cases hd : ft ≤ inp.1
    · rw [if_pos hd]
      exact pubInv_doPublish (doFlush s) T inp.1 inp.2 hT (pubInv_flush s T h)
    · rw [if_neg hd]
      exact pubInv_doPublish s T inp.1 inp.2 hT h

theorem pubInv_foldl :
    ∀ (inputs : List (Nat × CellEditEv)) (s : PubState) (T : Nat),
    PubInv s T → (∀ te ∈ inputs, T ≤ te.1) →
    (inputs.map Prod.fst).Pairwise (· ≤ ·) →
    ∃ T', PubInv (inputs.foldl pubStep s) T' := by
  intro inputs
  induction inputs with
  | nil => intro s T h _ _; exact ⟨T, h⟩
  | cons te rest ih =>
      intro s T h hge hsorted
      rw [List.foldl_cons]
      have hstep := pubInv_pubStep s T te (hge te (List.mem_cons_self _ _)) h
      simp only [List.map_cons, List.pairwise_cons] at hsorted
      refine ih (pubStep s te) te.1 hstep ?_ hsorted.2
      intro te' hte'
      exact hsorted.1 te'.1 (List.mem_map.mpr ⟨te', hte', rfl⟩)

theorem finalFlush_immediateTimes (s : PubState) :
    (finalFlush s).immediateTimes = s.immediateTimes := by
  rw [finalFlush]
  cases s.flushAt <;> rfl

theorem runPublish_window (inputs : List (Nat × CellEditEv))
    (hsorted : (inputs.map Prod.fst).Pairwise (· ≤ ·)) :
    slidingWindowOk (runPublish inputs).immediateTimes := by
  have hinit : PubInv ⟨[], [], none, [], []⟩ 0 := by
    refine ⟨rfl, by simp, ?_⟩
    intro q
    simp [List.countP_nil]
  obtain ⟨T', hinv⟩ := pubInv_foldl inputs ⟨[], [], none, [], []⟩ 0 hinit
    (fun te _ => Nat.zero_le te.1) hsorted
  rw [runPublish, finalFlush_immediateTimes]
  exact hinv.2.2

theorem queue_flushAt_foldl :
    ∀ (inputs : List (Nat × CellEditEv)) (s : PubState),
    (s.queue ≠ [] → s.flushAt.isSome) →
    ((inputs.foldl pubStep s).queue ≠ [] → (inputs.foldl pubStep s).flushAt.isSome) := by
  intro inputs
  induction inputs with
  | nil => intro s h; exact h
  | cons te rest ih =>
      intro s h
      rw [List.foldl_cons]
      apply ih
      rw [pubStep_flush_part]
      rcases hf : s.flushAt with _ | ft
      · rw [doPublish]
        split
        · intro _
          simp
        · show s.queue ≠ [] → s.flushAt.isSome
          exact h
      · show ((doPublish (if ft ≤ te.1 then doFlush s else s) te.1 te.2).queue ≠ [] →
          (doPublish (if ft ≤ te.1 then doFlush s else s) te.1 te.2).flushAt.isSome)
        by_cases hd : ft ≤ te.1
        · rw [if_pos hd]
          rw [doPublish]
          split
          · intro _
            simp
          · intro hq
            exact absurd hq (by simp [doFlush])
        · rw [if_neg hd]
          rw [doPublish]
          split
          · intro _
            simp
          · intro _
            simp [hf]

theorem runPublish_queue_empty (inputs : List (Nat × CellEditEv)) :
    (runPublish inputs).queue = [] := by
  rw [runPublish, finalFlush]
  rcases hf : (inputs.foldl pubStep ⟨[], [], none, [], []⟩).flushAt with _ | ft
  · by_contra hq
    have := queue_flushAt_foldl inputs ⟨[], [], none, [], []⟩ (by intro hc; simp at hc) hq
    rw [hf] at this
    simp at this
  · rfl

/-- Final-value invariant while all publishes stay inside one rate
window starting at `t0`: the channel log extended by a flush of the
pending queue always reflects the last published value per cell. -/
def WinInv (t0 : Nat) (s : PubState) (processed : List CellEditEv) : Prop :=
  (∀ x ∈ s.editTimestamps, t0 ≤ x) ∧
  (s.queue ≠ [] → 20 ≤ s.editTimestamps.length) ∧
  (∀ k : Nat × Nat,
    lastVal (s.channelLog ++ coalesceQueue s.queue) k = lastVal processed k)

theorem winInv_flush (t0 : Nat) (s : PubState) (processed : List CellEditEv)
    (h : WinInv t0 s processed) : WinInv t0 (doFlush s) processed := by
  obtain ⟨h1, h2, h3⟩ := h
  refine ⟨h1, by intro hc; exact absurd rfl hc, ?_⟩
  intro k
  rw [doFlush]
  show lastVal ((s.channelLog ++ coalesceQueue s.queue) ++ coalesceQueue []) k =
    lastVal processed k
  rw [show coalesceQueue [] = [] from rfl, List.append_nil]
  exact h3 k

theorem winInv_doPublish (t0 t : Nat) (s : PubState) (processed : List CellEditEv)
    (e : CellEditEv) (ht : t0 ≤ t ∧ t < t0 + 1000)
    (h : WinInv t0 s processed) : WinInv t0 (doPublish s t e) (processed ++ [e]) := by
  obtain ⟨h1, h2, h3⟩ := h
  have hfilter : s.editTimestamps.filter (fun x => t - x < 1000) = s.editTimestamps := by
    apply List.filter_eq_self.mpr
    intro x hx
    have := h1 x hx
    simp only [decide_eq_true_eq]
    omega
  rw [doPublish, hfilter]
  by_cases hlim : 20 ≤ s.editTimestamps.length
  · rw [if_pos hlim]
    refine ⟨h1, fun _ => hlim, ?_⟩
    intro k
    show lastVal (s.channelLog ++ coalesceQueue (s.queue ++ [e])) k =
      lastVal (processed ++ [e]) k
    rw [lastVal_append, lastVal_coalesceQueue, lastVal_append, lastVal_append,
      Option.or_assoc]
    have h3' : (lastVal s.queue k).or (lastVal s.channelLog k) = lastVal processed k := by
      have hh := h3 k
      rw [lastVal_append, lastVal_coalesceQueue] at hh
      exact hh
    rw [h3']
  · rw [if_neg hlim]
    have hq : s.queue = [] := by
      by_contra hc
      exact hlim (h2 hc)
    refine ⟨?_, by intro hc; exact absurd hq hc, ?_⟩
    · intro x hx
      rcases List.mem_append.mp hx with hx | hx
      · exact h1 x hx
      · simp only [List.mem_singleton] at hx
        omega
    · intro k
      show lastVal ((s.channelLog ++ [e]) ++ coalesceQueue s.queue) k =
        lastVal (processed ++ [e]) k
      rw [hq, show coalesceQueue [] = [] from rfl, List.append_nil, lastVal_append,
        lastVal_append]
      have h3' := h3 k
      rw [hq, show coalesceQueue [] = [] from rfl, List.append_nil] at h3'
      rw [h3']

theorem winInv_pubStep (t0 : Nat) (s : PubState) (processed : List CellEditEv)
    (inp : Nat × CellEditEv) (ht : t0 ≤ inp.1 ∧ inp.1 < t0 + 1000)
    (h : WinInv t0 s processed) : WinInv t0 (pubStep s inp) (processed ++ [inp.2]) := by
  rw [pubStep_flush_part]
  rcases hf : s.flushAt with _ | ft
  · exact winInv_doPublish t0 inp.1 s processed inp.2 ht h
  · show WinInv t0 (doPublish (if ft ≤ inp.1 then doFlush s else s) inp.1 inp.2)
      (processed ++ [inp.2])
    by_cases hd : ft ≤ inp.1
    · rw [if_pos hd]
      exact winInv_doPublish t0 inp.1 (doFlush s) processed inp.2 ht
        (winInv_flush t0 s processed h)
    · rw [if_neg hd]
      exact winInv_doPublish t0 inp.1 s processed inp.2 ht h

theorem winInv_foldl (t0 : Nat) :
    ∀ (inputs : List (Nat × CellEditEv)) (s : PubState) (processed : List CellEditEv),
    (∀ te ∈ inputs, t0 ≤ te.1 ∧ te.1 < t0 + 1000) →
    WinInv t0 s processed →
    WinInv t0 (inputs.foldl pubStep s) (processed ++ inputs.map Prod.snd) := by
  intro inputs
  induction inputs with
  | nil => intro s processed _ h; simpa using h
  | cons te rest ih =>
      intro s processed hin h
      rw [List.foldl_cons, List.map_cons]
      have hstep := winInv_pubStep t0 s processed te (hin te (List.mem_cons_self _ _)) h
      have := ih (pubStep s te) (processed ++ [te.2])
        (fun te' hte' => hin te' (List.mem_cons_of_mem _ hte')) hstep
      simpa [List.append_assoc] using this

theorem runPublish_final_value (inputs : List (Nat × CellEditEv)) (t0 : Nat)
    (hin : ∀ te ∈ inputs, t0 ≤ te.1 ∧ te.1 < t0 + 1000) (k : Nat × Nat) :
    lastVal (runPublish inputs).channelLog k = lastPublished inputs k := by
  have hinit : WinInv t0 ⟨[], [], none, [], []⟩ [] := by
    refine ⟨by simp, by intro hc; exact absurd rfl hc, ?_⟩
    intro k'
    rfl
  have hinv := winInv_foldl t0 inputs ⟨[], [], none, [], []⟩ [] hin hinit
  rw [List.nil_append] at hinv
  have h3 := hinv.2.2 k
  rw [runPublish, lastPublished]
  rw [finalFlush]
  rcases hf : (inputs.foldl pubStep ⟨[], [], none, [], []⟩).flushAt with _ | ft
  · have hq : (inputs.foldl pubStep ⟨[], [], none, [], []⟩).queue = [] := by
      by_contra hc
      have := queue_flushAt_foldl inputs ⟨[], [], none, [], []⟩ (by intro hcc; simp at hcc) hc
      rw [hf] at this
      simp at this
    rw [hq, show coalesceQueue [] = [] from rfl, List.append_nil] at h3
    exact h3
  · show lastVal ((inputs.foldl pubStep ⟨[], [], none, [], []⟩).channelLog ++
      coalesceQueue (inputs.foldl pubStep ⟨[], [], none, [], []⟩).queue) k =
      lastVal (inputs.map Prod.snd) k
    exact h3

/-- C2 as stated: for every (chronological) sequence of cell-edit
publish calls, at most 20 cell edits are sent immediately per one-second
window, excess edits are queued and coalesced keeping only the most
recent edit per cell key, the queue is flushed rather than dropped, and
after the flush the channel's last-received value equals the
last-published value for each edited cell. -/
def c2_claim : Prop :=
  ∀ inputs : List (Nat × CellEditEv), (inputs.map Prod.fst).Pairwise (· ≤ ·) →
    slidingWindowOk (runPublish inputs).immediateTimes ∧
    (∀ (q : List CellEditEv) (k : Nat × Nat), lastVal (coalesceQueue q) k = lastVal q k) ∧
    (runPublish inputs).queue = [] ∧
    (∀ k : Nat × Nat, lastPublished inputs k ≠ none →
      lastVal (runPublish inputs).channelLog k = lastPublished inputs k)

/-- A timeline refuting the final-value conjunct: 20 immediate edits at
t=0 exhaust the window, the 21st edit at t=999 is queued (flush armed
for t=1049), the window expires and a 22nd edit at t=1001 is sent
immediately, then the flush at t=1049 re-publishes the stale queued
value after it. -/
def pubInputs : List (Nat × CellEditEv) :=
  (List.replicate 20 ((0 : Nat), CellEditEv.mk 0 0 "A")) ++
    [(999, CellEditEv.mk 0 0 "X"), (1001, CellEditEv.mk 0 0 "Y")]

set_option maxRecDepth 100000

/-- C2 counterexample: on `pubInputs` the channel's last-received value
for cell (0,0) is the stale queued `"X"`, not the last-published `"Y"`. -/
theorem c2_counterexample : ¬ c2_claim := by
  intro h
  have h4 := (h pubInputs (by decide)).2.2.2 (0, 0) (by decide)
  exact absurd h4 (by decide)

/-- C2 amended: the per-client rate limiter sends at most 20 cell edits
immediately per one-second window; excess edits are queued and coalesced
so that only the most recent edit per cell key survives; the queue is
always flushed rather than dropped; and the channel ends up with the
last-published value per cell **provided all publish calls fall within a
single one-second rate window** (as in the spec's 50-calls-in-one-second
scenario) — in general, a queued edit can be flushed after a later
immediate send for the same cell once the window expires, leaving the
stale value as last received. -/
theorem c2_rate_limiter_amended :
    (∀ inputs : List (Nat × CellEditEv), (inputs.map Prod.fst).Pairwise (· ≤ ·) →
      slidingWindowOk (runPublish inputs).immediateTimes) ∧
    (∀ (q : List CellEditEv) (k : Nat × Nat), lastVal (coalesceQueue q) k = lastVal q k) ∧
    (∀ inputs : List (Nat × CellEditEv), (runPublish inputs).queue = []) ∧
    (∀ (inputs : List (Nat × CellEditEv)) (t0 : Nat),
      (∀ te ∈ inputs, t0 ≤ te.1 ∧ te.1 < t0 + 1000) →
      ∀ k : Nat × Nat, lastVal (runPublish inputs).channelLog k = lastPublished inputs k) :=
  ⟨runPublish_window, lastVal_coalesceQueue, runPublish_queue_empty, runPublish_final_value⟩

/-- A 25-edit burst inside one window: 20 sent immediately, 5 coalesced
into one flushed edit carrying the final value. -/
def pubBurst : List (Nat × CellEditEv) :=
  (List.replicate 24 ((0 : Nat), CellEditEv.mk 0 0 "A")) ++ [(10, CellEditEv.mk 0 0 "Z")]

/-- Witness for C2's amended theorem on the in-window burst `pubBurst`. -/
theorem c2_witness :
    slidingWindowOk (runPublish pubBurst).immediateTimes ∧
    (runPublish pubBurst).queue = [] ∧
    lastVal (runPublish pubBurst).channelLog (0, 0) = lastPublished pubBurst (0, 0) :=
  ⟨c2_rate_limiter_amended.1 pubBurst (by decide),
   c2_rate_limiter_amended.2.2.1 pubBurst,
   c2_rate_limiter_amended.2.2.2 pubBurst 0 (by decide) (0, 0)⟩

end Crossword
